import Mathlib

/-!
# Cron schedule analyzer

A shallow embedding of `cron_schedule_analyzer.go` and the properties of its
simulation proved over that embedding.

Modelling conventions.

* Go's `int` is the 64-bit integer: a value is an `Int` and the sums and products of
  `main` that can leave the range are taken through `wrap64` (indices that range over
  a slice are `Nat`; a slice has fewer than `2 ^ 63` elements).
* A `time.Time` built by `time.Unix(ts, 0)` is its Unix second; `==` on two such
  values is equality of the second.
* A `float64` is a `GoFloat64`: a finite value, given by the rational number it
  denotes, or one of `+Inf`, `-Inf`, `NaN`. The quotient `x / 59` is the exact quotient
  rounded to the nearest `float64`, a tie going to the even significand
  (`roundFloat64`); the conversion to `int` of a value outside the range of `int`
  yields the least `int`, as the program does on the amd64 platform.
* Packages that are not part of the program (`cronexpr`, `strconv`, `sort`) are
  parameters: a structure holding their functions, with the documented contract of
  `sort.Sort` as fields.
* `os.Exit(1)` and a run-time panic are explicit outcomes.
-/

namespace CronScheduleAnalyzer

/-! ## Data model -/

/-- Constant `TIME_FRAME_DAYS_DEFAULT`. -/
def TIME_FRAME_DAYS_DEFAULT : Int := 7

/-- Constant `SEC_IN_DAY`. -/
def SEC_IN_DAY : Int := 86400

/-- Struct `RunSchema`: one minute bucket of the grid. -/
structure RunSchema where
  runningJobs : Int
  ts : Int
  tsTime : Int
  tsTime1SecBack : Int
deriving DecidableEq

/-- The value of an expression of type `int` whose mathematical value is `x`: the
representative of `x` modulo `2 ^ 64` in the range `-2 ^ 63 ≤ · < 2 ^ 63`. -/
def wrap64 (x : Int) : Int :=
  (x + 9223372036854775808) % 18446744073709551616 - 9223372036854775808

/-- A value of type `float64`: a finite value, given by the rational number it denotes,
or an infinity, or a value that is not a number. -/
inductive GoFloat64 where
  | finite (q : ℚ) : GoFloat64
  | posInf : GoFloat64
  | negInf : GoFloat64
  | nan : GoFloat64
deriving DecidableEq

/-- The integer nearest to `y`, a tie going to the even one. -/
def roundHalfEven (y : ℚ) : Int :=
  if y - (⌊y⌋ : ℚ) < 1 / 2 then ⌊y⌋
  else if 1 / 2 < y - (⌊y⌋ : ℚ) then ⌊y⌋ + 1
  else if ⌊y⌋ % 2 = 0 then ⌊y⌋ else ⌊y⌋ + 1

/-- The exponent of the unit in the last place of a `float64` of the magnitude of `x`:
52 below the binary exponent of `x`, and `-1074` when `x` is below the normal range. -/
def float64Exp (x : ℚ) : Int := max (Int.log 2 |x|) (-1022) - 52

/-- The `float64` nearest to `x`, a tie going to the even significand: `x` rounded to
a multiple of its unit in the last place. (No overflow to an infinity: it is used for
the quotient of a `float64` by 59 only.) -/
def roundFloat64 (x : ℚ) : ℚ :=
  (roundHalfEven (x / 2 ^ float64Exp x) : ℚ) * 2 ^ float64Exp x

/-- The number `q` is `m * 2 ^ t` with a significand `|m| < 2 ^ 53`, as every finite
`float64` is. -/
def IsFloat64 (q : ℚ) : Prop :=
  ∃ m t : Int, |m| < 9007199254740992 ∧ q = (m : ℚ) * 2 ^ t

/-- The expression `x / 59` on `float64`: the quotient rounded to the nearest
`float64`. -/
def GoFloat64.div59 : GoFloat64 → GoFloat64
  | GoFloat64.finite q => GoFloat64.finite (roundFloat64 (q / 59))
  | GoFloat64.posInf => GoFloat64.posInf
  | GoFloat64.negInf => GoFloat64.negInf
  | GoFloat64.nan => GoFloat64.nan

/-- Function `math.Ceil`. -/
def GoFloat64.ceil : GoFloat64 → GoFloat64
  | GoFloat64.finite q => GoFloat64.finite ((⌈q⌉ : Int) : ℚ)
  | GoFloat64.posInf => GoFloat64.posInf
  | GoFloat64.negInf => GoFloat64.negInf
  | GoFloat64.nan => GoFloat64.nan

/-- The conversion `int(x)` of a `float64`: the value truncated towards zero when that
is an `int`, and the least `int` otherwise (the result on amd64 for a value out of
range, an infinity or a `NaN`). -/
def GoFloat64.toInt : GoFloat64 → Int
  | GoFloat64.finite q =>
    let t : Int := if 0 ≤ q then ⌊q⌋ else ⌈q⌉
    if -9223372036854775808 ≤ t ∧ t < 9223372036854775808 then t
    else -9223372036854775808
  | _ => -9223372036854775808

/-- Struct `JobsData`: one line of the schedule file. -/
structure JobsData where
  schedule : String
  timeElapsed : GoFloat64
deriving DecidableEq

/-- How a loop of `main` ends: it runs to its end with state `s`, it calls
`os.Exit(1)` after a diagnostic while the state is `s`, or the Go run time panics. -/
inductive Run (σ : Type) where
  | done (s : σ) : Run σ
  | exit1 (s : σ) : Run σ
  | panic : Run σ
deriving DecidableEq

/-- How `main` ends. -/
inductive Outcome where
  | usage : Outcome
  | fatal : Outcome
  | panic : Outcome
  | report (ranked : List RunSchema) : Outcome
deriving DecidableEq

/-! ## External packages -/

/-- Package `github.com/gorhill/cronexpr`: `Parse` and `Expression.Next`, the
latter on Unix seconds. -/
structure Cronexpr where
  Expression : Type
  Parse : String → Option Expression
  Next : Expression → Int → Int

/-- Package `strconv`: `Atoi` and `ParseFloat(_, 64)`; `none` is a non-nil error. -/
structure Strconv where
  Atoi : String → Option Int
  ParseFloat : String → Option GoFloat64

/-- What package `sort` asks of a `Less` method: a strict ordering whose
incomparability is transitive. -/
structure LessOK {α : Type} (less : α → α → Bool) : Prop where
  irrefl : ∀ a, less a a = false
  trans : ∀ a b c, less a b = true → less b c = true → less a c = true
  incomp : ∀ a b c, less a b = false → less b c = false → less a c = false

/-- Package `sort`: `sortBy less` is `sort.Sort` on data whose `Less` method
compares two elements by `less`. It rearranges the data by swaps only, and for a lawful
`Less` the result is in ascending order as determined by `Less`. Nothing is
promised about the order of elements neither of which is less than the other. -/
structure SortPkg where
  sortBy : {α : Type} → (α → α → Bool) → List α → List α
  perm : ∀ {α : Type} (less : α → α → Bool) (l : List α), (sortBy less l).Perm l
  sorted : ∀ {α : Type} (less : α → α → Bool) (l : List α), LessOK less →
    (sortBy less l).Pairwise (fun a b => less b a = false)

/-! ## Sorting interface of `RunSchemaListSort` -/

/-- Method `Less` of `RunSchemaListSort`, on the two elements compared: descending
by `runningJobs`. -/
def Less (a b : RunSchema) : Bool := decide (a.runningJobs > b.runningJobs)

/-! ## Loading the schedule file -/

/-- White space as `strings.TrimSpace` sees it (`unicode.IsSpace`). -/
def isSpace (c : Char) : Bool :=
  let n := c.toNat
  n = 9 || n = 10 || n = 11 || n = 12 || n = 13 || n = 32 || n = 0x85 || n = 0xA0 ||
  n = 0x1680 || (0x2000 ≤ n && n ≤ 0x200A) || n = 0x2028 || n = 0x2029 ||
  n = 0x202F || n = 0x205F || n = 0x3000

/-- Function `strings.TrimSpace`. -/
def trimSpace (s : List Char) : List Char :=
  ((s.dropWhile isSpace).reverse.dropWhile isSpace).reverse

/-- Function `strings.Split` with a one-character separator. -/
def split (sep : Char) : List Char → List (List Char)
  | [] => [[]]
  | c :: cs =>
    if c = sep then [] :: split sep cs
    else
      match split sep cs with
      | [] => [[c]]
      | h :: t => (c :: h) :: t

/-- The loop over the lines of the file: blank lines are skipped, `cols[1]` is
read (a panic when the line has one column only) and parsed as the duration. -/
def linesLoop (sc : Strconv) : List (List Char) → List JobsData → Run (List JobsData)
  | [], jobsDataList => Run.done jobsDataList
  | line :: rest, jobsDataList =>
    let lineTrim := trimSpace line
    if lineTrim = [] then linesLoop sc rest jobsDataList
    else
      let cols := split (Char.ofNat 9) lineTrim
      match cols[1]? with
      | none => Run.panic
      | some col1 =>
        match sc.ParseFloat (String.mk col1) with
        | none => Run.exit1 jobsDataList
        | some timeElapsed =>
          linesLoop sc rest
            (jobsDataList ++ [⟨String.mk (cols.headD []), timeElapsed⟩])

/-- The job list read from the trimmed content of the file. -/
def loadJobs (sc : Strconv) (contentTrim : List Char) : Run (List JobsData) :=
  linesLoop sc (split (Char.ofNat 10) contentTrim) []

/-! ## The grid -/

/-- Variable `tsStart`. -/
def tsStart : Int := 946706400

/-- The `RunSchema` appended for the second `ts`. -/
def mkRunSchema (ts : Int) : RunSchema :=
  { runningJobs := 0, ts := ts, tsTime := ts, tsTime1SecBack := ts - 1 }

/-- The loop that prepares `runSchemaList`: every second `ts` of
`tsStart ≤ ts < tsEnd` is visited and those with `ts % 60 == 0` get a bucket. -/
def buildGrid (timeFrameSec : Int) : List RunSchema :=
  let tsEnd := wrap64 (tsStart + timeFrameSec)
  (((List.range (tsEnd - tsStart).toNat).map (fun k : Nat => tsStart + (k : Int))).filter
    (fun ts => decide (Int.tmod ts 60 = 0))).map mkRunSchema

/-! ## Aggregation -/

/-- The statement `runSchemaList[i].runningJobs += 1`; `none` is the panic of an
index out of range. -/
def incrAt : List RunSchema → Nat → Option (List RunSchema)
  | [], _ => none
  | r :: rs, 0 => some ({ r with runningJobs := r.runningJobs + 1 } :: rs)
  | r :: rs, i + 1 => (incrAt rs i).map (fun t => r :: t)

/-- The value `int(math.Ceil(job.timeElapsed / 59))`. -/
def runMinutesRequired (job : JobsData) : Int :=
  (job.timeElapsed.div59.ceil).toInt

/-- The loop over `nextMinute`, given the values `nextMinute` takes. -/
def nextMinuteLoop (runSchemaListLen : Nat) :
    List Nat → List RunSchema → Option (List RunSchema)
  | [], l => some l
  | nextMinute :: rest, l =>
    if (nextMinute : Int) ≤ (runSchemaListLen : Int) - 1 then
      match incrAt l nextMinute with
      | none => none
      | some l1 => nextMinuteLoop runSchemaListLen rest l1
    else nextMinuteLoop runSchemaListLen rest l

/-- The body of `if job run is due`: the firing bucket is raised, then the buckets
`minute + 1 .. maxNextMinute - 1` that lie in the grid. -/
def fire (runSchemaListLen minute : Nat) (job : JobsData) (l : List RunSchema) :
    Option (List RunSchema) :=
  match incrAt l minute with
  | none => none
  | some l1 =>
    let maxNextMinute : Int := wrap64 ((minute : Int) + runMinutesRequired job)
    nextMinuteLoop runSchemaListLen
      (List.range' (minute + 1) (maxNextMinute - ((minute : Int) + 1)).toNat) l1

/-- The condition `runSchema.tsTime == scheduleParsed.Next(runSchema.tsTime1SecBack)`. -/
def due (cx : Cronexpr) (e : cx.Expression) (runSchema : RunSchema) : Bool :=
  decide (runSchema.tsTime = cx.Next e runSchema.tsTime1SecBack)

/-- The loop over `jobsDataList` for one bucket. -/
def jobsLoop (cx : Cronexpr) (runSchemaListLen minute : Nat) (runSchema : RunSchema) :
    List JobsData → List RunSchema → Run (List RunSchema)
  | [], l => Run.done l
  | job :: rest, l =>
    match cx.Parse job.schedule with
    | none => Run.exit1 l
    | some scheduleParsed =>
      if due cx scheduleParsed runSchema then
        match fire runSchemaListLen minute job l with
        | none => Run.panic
        | some l1 => jobsLoop cx runSchemaListLen minute runSchema rest l1
      else jobsLoop cx runSchemaListLen minute runSchema rest l

/-- The loop `for minute, runSchema := range runSchemaList`, given the indices still
to visit. -/
def minuteLoop (cx : Cronexpr) (jobsDataList : List JobsData) (runSchemaListLen : Nat) :
    List Nat → List RunSchema → Run (List RunSchema)
  | [], l => Run.done l
  | minute :: rest, l =>
    match l[minute]? with
    | none => Run.panic
    | some runSchema =>
      match jobsLoop cx runSchemaListLen minute runSchema jobsDataList l with
      | Run.done l1 => minuteLoop cx jobsDataList runSchemaListLen rest l1
      | Run.exit1 s => Run.exit1 s
      | Run.panic => Run.panic

/-- The section `Process jobs data` of `main`. -/
def processJobs (cx : Cronexpr) (jobsDataList : List JobsData) (runSchemaList : List RunSchema) :
    Run (List RunSchema) :=
  minuteLoop cx jobsDataList runSchemaList.length (List.range runSchemaList.length)
    runSchemaList

/-! ## Ranking and the whole run -/

/-- The call `sort.Sort(RunSchemaListSort(runSchemaList))`. -/
def rank (sp : SortPkg) (runSchemaList : List RunSchema) : List RunSchema :=
  sp.sortBy Less runSchemaList

/-- The variable `timeFrameSec` from the command line; `none` is the exit on an
argument `strconv.Atoi` rejects. -/
def timeFrameSecOf (sc : Strconv) (args : List String) : Option Int :=
  if args.length = 3 then
    match sc.Atoi (args.getD 2 "") with
    | none => none
    | some timeFrameDays => some (wrap64 (timeFrameDays * SEC_IN_DAY))
  else some (TIME_FRAME_DAYS_DEFAULT * SEC_IN_DAY)

/-- Function `main`, up to the point where the ranked table is printed; `file` is
what `ioutil.ReadFile` returns (`none` for an error). -/
def mainRun (sc : Strconv) (cx : Cronexpr) (sp : SortPkg) (args : List String)
    (file : Option String) : Outcome :=
  if args.length < 2 ∨ args.length > 3 then Outcome.usage
  else
    match timeFrameSecOf sc args with
    | none => Outcome.fatal
    | some timeFrameSec =>
      match file with
      | none => Outcome.fatal
      | some content =>
        let contentTrim := trimSpace content.toList
        if contentTrim = [] then Outcome.fatal
        else
          match loadJobs sc contentTrim with
          | Run.panic => Outcome.panic
          | Run.exit1 _ => Outcome.fatal
          | Run.done jobsDataList =>
            match processJobs cx jobsDataList (buildGrid timeFrameSec) with
            | Run.panic => Outcome.panic
            | Run.exit1 _ => Outcome.fatal
            | Run.done runSchemaList => Outcome.report (rank sp runSchemaList)

/-! ## Auxiliary notions for the statements -/

/-- The grid `l` with `c k` added to the running count of bucket `k`. -/
def addCounts (c : Nat → Int) : List RunSchema → List RunSchema
  | [] => []
  | r :: rs =>
    { r with runningJobs := r.runningJobs + c 0 } :: addCounts (fun k => c (k + 1)) rs

/-- Bucket `k` is one of those a firing of `job` at bucket `minute` raises: the firing
bucket itself and the buckets after it that lie before `maxNextMinute`. -/
def covers (minute : Nat) (job : JobsData) (k : Nat) : Bool :=
  decide (k = minute ∨
    (minute < k ∧ (k : Int) < wrap64 ((minute : Int) + runMinutesRequired job)))

/-- The number `⌈d / 59⌉` for a finite duration `d`; for a duration that is not finite,
which has no such number, it is 0. -/
def exactMinutes : GoFloat64 → Int
  | GoFloat64.finite d => ⌈d / 59⌉
  | _ => 0

/-- The expression of the job parses. -/
def parses (cx : Cronexpr) (job : JobsData) : Bool := (cx.Parse job.schedule).isSome

/-- The job fires at the bucket `runSchema`: its expression parses and the condition
of `main` holds for that bucket. -/
def fires (cx : Cronexpr) (job : JobsData) (runSchema : RunSchema) : Bool :=
  match cx.Parse job.schedule with
  | some e => due cx e runSchema
  | none => false

/-- The job fires at bucket `i` of the grid. -/
def firesAt (cx : Cronexpr) (grid : List RunSchema) (job : JobsData) (i : Nat) : Bool :=
  match grid[i]? with
  | some runSchema => fires cx job runSchema
  | none => false

/-- What the jobs of `jobs` firing at the bucket `runSchema` of index `minute` add to
bucket `k`. -/
def jobsContribution (cx : Cronexpr) (runSchema : RunSchema) (minute : Nat)
    (jobs : List JobsData) (k : Nat) : Int :=
  (jobs.map (fun j => if fires cx j runSchema && covers minute j k then (1 : Int) else 0)).sum

/-- What the jobs of `jobs` firing at the buckets of `minutes` add to bucket `k`. -/
def contribution (cx : Cronexpr) (grid : List RunSchema) (jobs : List JobsData)
    (minutes : List Nat) (k : Nat) : Int :=
  (minutes.map (fun m =>
    (jobs.map (fun j => if firesAt cx grid j m && covers m j k then (1 : Int) else 0)).sum)).sum

/-- The pairs (job `j`, bucket `i`) that add one to bucket `k`: `i ≤ k`, job `j` fires
at bucket `i`, and `k ≤ i + max 1 ⌈d_j / 59⌉ - 1`. -/
def contributingPairs (cx : Cronexpr) (grid : List RunSchema) (jobs : List JobsData)
    (k : Nat) : Finset (Fin jobs.length × Fin grid.length) :=
  Finset.univ.filter (fun p =>
    p.2.val ≤ k ∧ firesAt cx grid (jobs.get p.1) p.2.val = true ∧
      (k : Int) ≤ (p.2.val : Int) + max 1 (exactMinutes (jobs.get p.1).timeElapsed) - 1)

/-- The number of buckets of the grid built for `timeFrameSec`: the multiples of 60
among the seconds `tsStart ≤ ts < tsEnd`. -/
def gridLength (timeFrameSec : Int) : Nat :=
  ((wrap64 (tsStart + timeFrameSec) - tsStart).toNat + 59) / 60

/-- The number of buckets whose running count is greater in `after` than in `before`. -/
def raisedCount : List RunSchema → List RunSchema → Nat
  | b :: bs, a :: as =>
    (if b.runningJobs < a.runningJobs then 1 else 0) + raisedCount bs as
  | _, _ => 0

/-- Every bucket of `after` has a running count at least that of the same bucket of
`before`, and the two grids have the same number of buckets. -/
def CountsLe (before after : List RunSchema) : Prop :=
  before.length = after.length ∧
    ∀ (k : Nat) (b a : RunSchema), before[k]? = some b → after[k]? = some a →
      b.runningJobs ≤ a.runningJobs

/-- The second `s` is the earliest whole second strictly after `t` that matches a rule,
the rule being given by the seconds it matches. -/
def EarliestAfter (matchesRule : Int → Prop) (t s : Int) : Prop :=
  t < s ∧ matchesRule s ∧ ∀ u : Int, t < u → matchesRule u → s ≤ u

/-! ## Sample instances of the external packages

Concrete packages at which the theorems are instantiated: a `cronexpr` that knows three
expressions (for a time zone whose offset is a whole number of hours), a `strconv`
that knows a few numerals, and an insertion sort for `sort.Sort`. -/

/-- The rules the sample `cronexpr` knows: every minute, or at minute `m` of every hour. -/
inductive SampleExpr where
  | everyMinute : SampleExpr
  | atMinute (m : Nat) : SampleExpr
deriving DecidableEq

/-- Sample `Parse`. -/
def sampleParse (s : String) : Option SampleExpr :=
  if s = "* * * * *" then some SampleExpr.everyMinute
  else if s = "0 * * * *" then some (SampleExpr.atMinute 0)
  else if s = "5 * * * *" then some (SampleExpr.atMinute 5)
  else none

/-- Sample `Next`: the earliest second after `t` that lies on a matching minute. -/
def sampleNext : SampleExpr → Int → Int
  | SampleExpr.everyMinute, t => (t / 60 + 1) * 60
  | SampleExpr.atMinute m, t => ((t - 60 * (m : Int)) / 3600 + 1) * 3600 + 60 * (m : Int)

/-- The sample `cronexpr`. -/
def sampleCron : Cronexpr :=
  { Expression := SampleExpr, Parse := sampleParse, Next := sampleNext }

/-- The `float64` nearest to 34.2, the value `strconv.ParseFloat` returns for the text
`34.2`: `2406611050876109 * 2 ^ (-46)`. -/
def float34_2 : ℚ := 2406611050876109 / 70368744177664

/-- The sample `strconv`. -/
def sampleStrconv : Strconv :=
  { Atoi := fun s =>
      if s = "0" then some 0 else if s = "1" then some 1 else if s = "7" then some 7
      else if s = "106751991167301" then some 106751991167301
      else none
    ParseFloat := fun s =>
      if s = "0" then some (GoFloat64.finite 0)
      else if s = "68.5" then some (GoFloat64.finite (137 / 2))
      else if s = "34.2" then some (GoFloat64.finite float34_2)
      else if s = "3600" then some (GoFloat64.finite 3600)
      else if s = "-5" then some (GoFloat64.finite (-5))
      else if s = "1180591620717411303424" then
        some (GoFloat64.finite 1180591620717411303424)
      else if s = "+Inf" then some GoFloat64.posInf
      else if s = "NaN" then some GoFloat64.nan
      else none }

/-- The two jobs of the usage text. -/
def sampleJobs : List JobsData :=
  [{ schedule := "0 * * * *", timeElapsed := GoFloat64.finite (137 / 2) },
   { schedule := "5 * * * *", timeElapsed := GoFloat64.finite float34_2 }]

/-- One job that runs every minute and takes no time. -/
def everyMinuteJobs : List JobsData :=
  [{ schedule := "* * * * *", timeElapsed := GoFloat64.finite 0 }]

/-- A job list whose second expression does not parse. -/
def malformedJobs : List JobsData :=
  [{ schedule := "* * * * *", timeElapsed := GoFloat64.finite 0 },
   { schedule := "every minute", timeElapsed := GoFloat64.finite 0 }]

/-- One job that runs at the start of every hour and takes an hour. -/
def hourJobs : List JobsData :=
  [{ schedule := "0 * * * *", timeElapsed := GoFloat64.finite 3600 }]

/-- One job that runs at the start of every hour, with a duration of `2 ^ 70` seconds. -/
def longJobs : List JobsData :=
  [{ schedule := "0 * * * *", timeElapsed := GoFloat64.finite 1180591620717411303424 }]

/-- An insertion sort driven by `less`. -/
def insertionSortBy {α : Type} (less : α → α → Bool) (l : List α) : List α :=
  l.insertionSort (fun a b => less b a = false)

/-- The insertion sort as a `sort` package: it meets the contract. -/
def sampleSort : SortPkg :=
  { sortBy := fun less l => insertionSortBy less l
    perm := fun less l => List.perm_insertionSort _ l
    sorted := fun {α} less l h => by
      haveI : IsTotal α (fun a b => less b a = false) := ⟨fun a b => by
        cases hba : less b a with
        | false => exact Or.inl rfl
        | true =>
          cases hab : less a b with
          | false => exact Or.inr rfl
          | true =>
            have := h.trans a b a hab hba
            rw [h.irrefl a] at this
            cases this⟩
      haveI : IsTrans α (fun a b => less b a = false) :=
        ⟨fun a b c hab hbc => h.incomp c b a hbc hab⟩
      exact List.sorted_insertionSort _ l }

/-! ## Arithmetic of `int` and `float64` -/

theorem wrap64_eq_self (x : Int) (h1 : -9223372036854775808 ≤ x)
    (h2 : x < 9223372036854775808) : wrap64 x = x := by
  unfold wrap64
  omega

theorem wrap64_le (x : Int) (h1 : -9223372036854775808 ≤ x) : wrap64 x ≤ x := by
  unfold wrap64
  omega

theorem toInt_range (x : GoFloat64) :
    -9223372036854775808 ≤ x.toInt ∧ x.toInt < 9223372036854775808 := by
  cases x with
  | finite q =>
    simp only [GoFloat64.toInt]
    generalize (if 0 ≤ q then ⌊q⌋ else ⌈q⌉) = t
    split_ifs with h
    · exact h
    · constructor <;> decide
  | posInf => constructor <;> decide
  | negInf => constructor <;> decide
  | nan => constructor <;> decide

theorem runMinutesRequired_range (job : JobsData) :
    -9223372036854775808 ≤ runMinutesRequired job ∧
      runMinutesRequired job < 9223372036854775808 :=
  toInt_range _

/-! ## Rounding to `float64` -/

theorem floor_le_roundHalfEven (y : ℚ) : ⌊y⌋ ≤ roundHalfEven y := by
  unfold roundHalfEven
  split_ifs <;> omega

theorem roundHalfEven_le_ceil (y : ℚ) : roundHalfEven y ≤ ⌈y⌉ := by
  unfold roundHalfEven
  have h1 : ⌊y⌋ ≤ ⌈y⌉ := Int.floor_le_ceil y
  by_cases h : y - (⌊y⌋ : ℚ) < 1 / 2
  · rw [if_pos h]; exact h1
  · have hlt : (⌊y⌋ : ℚ) < y := by linarith
    have h2 : ⌊y⌋ + 1 ≤ ⌈y⌉ := by
      have : ⌊y⌋ < ⌈y⌉ := Int.lt_ceil.mpr hlt
      omega
    rw [if_neg h]
    split_ifs <;> omega

theorem le_roundHalfEven (y : ℚ) (k : Int) (h : (k : ℚ) ≤ y) : k ≤ roundHalfEven y :=
  le_trans (Int.le_floor.mpr h) (floor_le_roundHalfEven y)

theorem roundHalfEven_le (y : ℚ) (k : Int) (h : y ≤ (k : ℚ)) : roundHalfEven y ≤ k :=
  le_trans (roundHalfEven_le_ceil y) (Int.ceil_le.mpr h)

theorem abs_roundHalfEven_sub (y : ℚ) : |(roundHalfEven y : ℚ) - y| ≤ 1 / 2 := by
  have h1 := Int.floor_le y
  have h2 := Int.lt_floor_add_one y
  unfold roundHalfEven
  rw [abs_le]
  split_ifs with ha hb hc
  · constructor <;> linarith
  · push_cast; constructor <;> linarith
  · constructor <;> linarith
  · push_cast; constructor <;> linarith

theorem quantum_pos (x : ℚ) : (0 : ℚ) < 2 ^ float64Exp x := by positivity

/-- A multiple of the unit in the last place below `x` is below the rounded `x`. -/
theorem le_roundFloat64 (x : ℚ) (k : Int) (h : (k : ℚ) * 2 ^ float64Exp x ≤ x) :
    (k : ℚ) * 2 ^ float64Exp x ≤ roundFloat64 x := by
  have hq := quantum_pos x
  unfold roundFloat64
  apply mul_le_mul_of_nonneg_right _ (le_of_lt hq)
  have : (k : ℚ) ≤ x / 2 ^ float64Exp x := by
    rw [le_div_iff₀ hq]; exact h
  exact_mod_cast le_roundHalfEven _ k this

theorem roundFloat64_le (x : ℚ) (k : Int) (h : x ≤ (k : ℚ) * 2 ^ float64Exp x) :
    roundFloat64 x ≤ (k : ℚ) * 2 ^ float64Exp x := by
  have hq := quantum_pos x
  unfold roundFloat64
  apply mul_le_mul_of_nonneg_right _ (le_of_lt hq)
  have : x / 2 ^ float64Exp x ≤ (k : ℚ) := by
    rw [div_le_iff₀ hq]; exact h
  exact_mod_cast roundHalfEven_le _ k this

theorem abs_roundFloat64_sub (x : ℚ) :
    |roundFloat64 x - x| ≤ 2 ^ float64Exp x / 2 := by
  have hq := quantum_pos x
  have h := abs_roundHalfEven_sub (x / 2 ^ float64Exp x)
  unfold roundFloat64
  have e : (roundHalfEven (x / 2 ^ float64Exp x) : ℚ) * 2 ^ float64Exp x - x =
      ((roundHalfEven (x / 2 ^ float64Exp x) : ℚ) - x / 2 ^ float64Exp x) *
        2 ^ float64Exp x := by
    field_simp
  rw [e, abs_mul, abs_of_pos hq]
  calc |(roundHalfEven (x / 2 ^ float64Exp x) : ℚ) - x / 2 ^ float64Exp x| * 2 ^ float64Exp x
      ≤ 1 / 2 * 2 ^ float64Exp x := mul_le_mul_of_nonneg_right h (le_of_lt hq)
    _ = 2 ^ float64Exp x / 2 := by ring

/-- A number `k * 2 ^ j` with `j` at least the exponent of the unit in the last place
is a multiple of that unit. -/
theorem multiple_of_quantum (e j : Int) (hj : e ≤ j) (k : Int) :
    ∃ k1 : Int, (k : ℚ) * 2 ^ j = (k1 : ℚ) * 2 ^ e := by
  refine ⟨k * 2 ^ (j - e).toNat, ?_⟩
  have h1 : j = e + ((j - e).toNat : Int) := by omega
  have h2 : (2 : ℚ) ^ j = 2 ^ e * 2 ^ (j - e).toNat := by
    conv_lhs => rw [h1]
    rw [zpow_add₀ (by norm_num), zpow_natCast]
  rw [h2]
  push_cast
  ring

theorem le_roundFloat64_of_exp (x : ℚ) (k j : Int) (hj : float64Exp x ≤ j)
    (h : (k : ℚ) * 2 ^ j ≤ x) : (k : ℚ) * 2 ^ j ≤ roundFloat64 x := by
  obtain ⟨k1, hk1⟩ := multiple_of_quantum (float64Exp x) j hj k
  rw [hk1] at h ⊢
  exact le_roundFloat64 x k1 h

theorem roundFloat64_le_of_exp (x : ℚ) (k j : Int) (hj : float64Exp x ≤ j)
    (h : x ≤ (k : ℚ) * 2 ^ j) : roundFloat64 x ≤ (k : ℚ) * 2 ^ j := by
  obtain ⟨k1, hk1⟩ := multiple_of_quantum (float64Exp x) j hj k
  rw [hk1] at h ⊢
  exact roundFloat64_le x k1 h

theorem roundFloat64_nonneg (x : ℚ) (h : 0 ≤ x) : 0 ≤ roundFloat64 x := by
  have := le_roundFloat64 x 0 (by simpa using h)
  simpa using this

theorem roundFloat64_nonpos (x : ℚ) (h : x ≤ 0) : roundFloat64 x ≤ 0 := by
  have := roundFloat64_le x 0 (by simpa using h)
  simpa using this

/-- The exponent of the unit in the last place of a positive number below
`2 ^ (k + 1)`. -/
theorem float64Exp_le (x : ℚ) (k : Int) (hk : -1022 ≤ k) (h0 : 0 < x)
    (hx : x < 2 ^ (k + 1)) : float64Exp x ≤ k - 52 := by
  unfold float64Exp
  rw [abs_of_pos h0]
  have h1 : Int.log 2 x < k + 1 := by
    rw [← Int.lt_zpow_iff_log_lt (by norm_num) h0]
    exact_mod_cast hx
  have := max_le (show Int.log 2 x ≤ k by omega) hk
  omega


theorem float64Exp_nonpos (x : ℚ) (h0 : 0 < x) (hx : x < 9007199254740992) :
    float64Exp x ≤ 0 := by
  have h := float64Exp_le x 52 (by decide) h0 (by norm_num; exact hx)
  omega

/-- An integer below a positive number under `2 ^ 53` is below the rounded number. -/
theorem int_le_roundFloat64 (x : ℚ) (h0 : 0 < x) (hx : x < 9007199254740992) (n : Int)
    (h : (n : ℚ) ≤ x) : (n : ℚ) ≤ roundFloat64 x := by
  have := le_roundFloat64_of_exp x n 0 (float64Exp_nonpos x h0 hx) (by simpa using h)
  simpa using this

theorem roundFloat64_le_int (x : ℚ) (h0 : 0 < x) (hx : x < 9007199254740992) (n : Int)
    (h : x ≤ (n : ℚ)) : roundFloat64 x ≤ (n : ℚ) := by
  have := roundFloat64_le_of_exp x n 0 (float64Exp_nonpos x h0 hx) (by simpa using h)
  simpa using this

/-- The unit in the last place of a number `1 ≤ x`, by the power of two below `x`. -/
theorem quantum_of_one_le (x : ℚ) (h1 : 1 ≤ x) :
    ∃ P : ℚ, 0 < P ∧ P ≤ x ∧ (2 : ℚ) ^ float64Exp x = P / 4503599627370496 ∧
      (x < 281474976710656 → P ≤ 140737488355328) := by
  have h0 : 0 < x := by linarith
  have hL : 0 ≤ Int.log 2 x := by
    rw [← Int.zpow_le_iff_le_log (by norm_num) h0]
    simpa using h1
  refine ⟨2 ^ Int.log 2 x, by positivity, ?_, ?_, ?_⟩
  · have := Int.zpow_log_le_self (b := 2) (by norm_num) h0
    exact_mod_cast this
  · unfold float64Exp
    rw [abs_of_pos h0, max_eq_left (by omega), zpow_sub₀ (by norm_num)]
    norm_num
  · intro hx
    have h2 : Int.log 2 x < 48 := by
      rw [← Int.lt_zpow_iff_log_lt (by norm_num) h0]
      norm_num
      exact hx
    have h3 : (2 : ℚ) ^ Int.log 2 x ≤ 2 ^ (47 : Int) :=
      zpow_le_zpow_right₀ (by norm_num) (by omega)
    calc (2 : ℚ) ^ Int.log 2 x ≤ 2 ^ (47 : Int) := h3
      _ = 140737488355328 := by norm_num

/-- The quotient by 59 of a `float64` is not rounded down to an integer `n ≥ 1` that
lies below it. -/
theorem lt_roundFloat64_div59 (d : ℚ) (hfl : IsFloat64 d) (n : Int) (hn : 1 ≤ n)
    (h : (n : ℚ) < d / 59) (hx : d / 59 < 281474976710656) :
    (n : ℚ) < roundFloat64 (d / 59) := by
  by_contra hle
  push_neg at hle
  have hn1 : (1 : ℚ) ≤ (n : ℚ) := by exact_mod_cast hn
  have h1 : (1 : ℚ) ≤ d / 59 := by linarith
  obtain ⟨P, hP0, hPx, hQ, hP47⟩ := quantum_of_one_le (d / 59) h1
  have herr := abs_roundFloat64_sub (d / 59)
  rw [hQ] at herr
  have herr2 : d / 59 - (n : ℚ) ≤ P / 4503599627370496 / 2 := by
    have := (abs_le.mp herr).1
    linarith
  obtain ⟨m, t, hm, hd⟩ := hfl
  have hm2 : (m : ℚ) < 9007199254740992 := by
    have : m < 9007199254740992 := lt_of_le_of_lt (le_abs_self m) hm
    exact_mod_cast this
  rcases le_total 0 t with ht | ht
  · obtain ⟨s, rfl⟩ := Int.eq_ofNat_of_zero_le ht
    have hM : d = ((m * 2 ^ s : Int) : ℚ) := by
      rw [hd, zpow_natCast]; push_cast; ring
    have h59 : ((59 * n : Int) : ℚ) < ((m * 2 ^ s : Int) : ℚ) := by
      rw [← hM]; push_cast
      have := (lt_div_iff₀ (by norm_num : (0 : ℚ) < 59)).mp h
      linarith
    have h60 : 59 * n + 1 ≤ m * 2 ^ s := by
      have : 59 * n < m * 2 ^ s := by exact_mod_cast h59
      omega
    have h61 : ((59 * n + 1 : Int) : ℚ) ≤ d := by
      rw [hM]; exact_mod_cast h60
    push_cast at h61
    have h62 : (n : ℚ) + 1 / 59 ≤ d / 59 := by
      rw [le_div_iff₀ (by norm_num)]
      linarith
    have := hP47 hx
    linarith
  · obtain ⟨s, hs⟩ := Int.eq_ofNat_of_zero_le (show 0 ≤ -t by omega)
    have ht2 : t = -(s : Int) := by omega
    subst ht2
    have hT : (0 : ℚ) < 2 ^ s := by positivity
    have hd2 : d * 2 ^ s = (m : ℚ) := by
      rw [hd, zpow_neg, zpow_natCast]
      field_simp
    have h59 : ((59 * n * 2 ^ s : Int) : ℚ) < (m : ℚ) := by
      rw [← hd2]; push_cast
      have := (lt_div_iff₀ (by norm_num : (0 : ℚ) < 59)).mp h
      nlinarith
    have h60 : 59 * n * 2 ^ s + 1 ≤ m := by
      have : 59 * n * 2 ^ s < m := by exact_mod_cast h59
      omega
    have h61 : ((59 * n * 2 ^ s + 1 : Int) : ℚ) ≤ (m : ℚ) := by exact_mod_cast h60
    push_cast at h61
    have h62 : 1 ≤ 59 * (2 : ℚ) ^ s * (d / 59 - n) := by
      have : 59 * (2 : ℚ) ^ s * (d / 59 - n) = d * 2 ^ s - 59 * n * 2 ^ s := by ring
      rw [this, hd2]; linarith
    have h63 : 59 * (2 : ℚ) ^ s * (d / 59 - n) ≤
        59 * (2 : ℚ) ^ s * (d / 59 / 4503599627370496 / 2) := by
      apply mul_le_mul_of_nonneg_left _ (by positivity)
      have : P / 4503599627370496 / 2 ≤ d / 59 / 4503599627370496 / 2 := by
        apply div_le_div_of_nonneg_right _ (by norm_num)
        apply div_le_div_of_nonneg_right hPx (by norm_num)
      linarith
    have h64 : 59 * (2 : ℚ) ^ s * (d / 59 / 4503599627370496 / 2) =
        (m : ℚ) / 9007199254740992 := by
      rw [← hd2]; ring
    have h65 : (m : ℚ) / 9007199254740992 < 1 := by
      rw [div_lt_one (by norm_num)]; exact hm2
    linarith

/-- The value of `int(math.Ceil(x / 59))` for a finite `x = d`. -/
theorem runMinutesRequired_finite (s : String) (d : ℚ) :
    runMinutesRequired { schedule := s, timeElapsed := GoFloat64.finite d } =
      if -9223372036854775808 ≤ ⌈roundFloat64 (d / 59)⌉ ∧
          ⌈roundFloat64 (d / 59)⌉ < 9223372036854775808
      then ⌈roundFloat64 (d / 59)⌉
      else -9223372036854775808 := by
  simp only [runMinutesRequired, GoFloat64.div59, GoFloat64.ceil, GoFloat64.toInt]
  have h : ∀ z : Int, (if (0 : ℚ) ≤ (z : ℚ) then ⌊(z : ℚ)⌋ else ⌈(z : ℚ)⌉) = z := by
    intro z
    split_ifs <;> simp
  rw [h]

/-! ## Lemmas on the aggregation loops -/

theorem length_addCounts (c : Nat → Int) (l : List RunSchema) :
    (addCounts c l).length = l.length := by
  induction l generalizing c with
  | nil => rfl
  | cons r rs ih => simp [addCounts, ih]

theorem addCounts_zero (l : List RunSchema) : addCounts (fun _ => 0) l = l := by
  induction l with
  | nil => rfl
  | cons r rs ih => simp [addCounts, ih]

theorem addCounts_addCounts (c d : Nat → Int) (l : List RunSchema) :
    addCounts c (addCounts d l) = addCounts (fun k => d k + c k) l := by
  induction l generalizing c d with
  | nil => rfl
  | cons r rs ih => simp [addCounts, ih, add_assoc]

theorem addCounts_congr (c d : Nat → Int) (l : List RunSchema)
    (h : ∀ k, k < l.length → c k = d k) : addCounts c l = addCounts d l := by
  induction l generalizing c d with
  | nil => rfl
  | cons r rs ih =>
    simp only [addCounts]
    rw [h 0 (by simp), ih (fun k => c (k + 1)) (fun k => d (k + 1))
      (fun k hk => h (k + 1) (by simpa using hk))]

theorem getElem?_addCounts (c : Nat → Int) (l : List RunSchema) (k : Nat) :
    (addCounts c l)[k]? =
      (l[k]?).map (fun r => { r with runningJobs := r.runningJobs + c k }) := by
  induction l generalizing c k with
  | nil => simp [addCounts]
  | cons r rs ih =>
    cases k with
    | zero => simp [addCounts]
    | succ k => simp [addCounts, ih]

theorem incrAt_eq (l : List RunSchema) (i : Nat) (h : i < l.length) :
    incrAt l i = some (addCounts (fun k => if k = i then 1 else 0) l) := by
  induction l generalizing i with
  | nil => simp at h
  | cons r rs ih =>
    cases i with
    | zero =>
      simp only [incrAt, addCounts]
      congr 2
      exact (addCounts_zero rs).symm.trans (addCounts_congr _ _ _ (fun k _ => by simp))
    | succ i =>
      have hi : i < rs.length := by simpa using h
      simp [incrAt, addCounts, ih i hi]

theorem incrAt_none (l : List RunSchema) (i : Nat) (h : l.length ≤ i) :
    incrAt l i = none := by
  induction l generalizing i with
  | nil => rfl
  | cons r rs ih =>
    cases i with
    | zero => simp at h
    | succ i => simp [incrAt, ih i (by simpa using h)]

theorem nextMinuteLoop_eq (len : Nat) (ms : List Nat) (l : List RunSchema)
    (hl : l.length = len) :
    nextMinuteLoop len ms l =
      some (addCounts (fun k => ((ms.filter (fun m => decide (m < len))).count k : Int)) l) := by
  induction ms generalizing l with
  | nil => simp [nextMinuteLoop, addCounts_zero]
  | cons m ms ih =>
    simp only [nextMinuteLoop]
    by_cases hm : m < len
    · have h1 : (m : Int) ≤ (len : Int) - 1 := by omega
      rw [if_pos h1, incrAt_eq l m (hl ▸ hm)]
      simp only
      rw [ih _ (by rw [length_addCounts, hl]), addCounts_addCounts]
      congr 1
      apply addCounts_congr
      intro k _
      simp only [List.filter_cons, hm, decide_True, if_true, List.count_cons]
      by_cases hk : k = m
      · subst hk; simp; ring
      · have : ¬ m = k := fun h => hk h.symm
        simp [hk, this]
    · have h1 : ¬ ((m : Int) ≤ (len : Int) - 1) := by omega
      rw [if_neg h1, ih l hl]
      simp [List.filter_cons, hm]

/-- A firing at a bucket of the grid: the buckets `covers` names are raised by one. -/
theorem fire_eq (minute : Nat) (job : JobsData) (l : List RunSchema)
    (h : minute < l.length) :
    fire l.length minute job l =
      some (addCounts (fun k => if covers minute job k then 1 else 0) l) := by
  unfold fire
  rw [incrAt_eq l minute h]
  simp only
  rw [nextMinuteLoop_eq _ _ _ (length_addCounts _ _), addCounts_addCounts]
  congr 1
  apply addCounts_congr
  intro k hk
  rw [List.count_eq_of_nodup ((List.nodup_range' _ _).filter _)]
  simp only [List.mem_filter, List.mem_range'_1, decide_eq_true_eq, covers]
  generalize wrap64 ((minute : Int) + runMinutesRequired job) = W
  by_cases h1 : k = minute
  · subst h1
    have h2 : ¬ ((k + 1 ≤ k ∧ k < k + 1 + (W - ((k : Int) + 1)).toNat) ∧ k < l.length) := by
      omega
    have h3 : k = k ∨ (k < k ∧ (k : Int) < W) := Or.inl rfl
    rw [if_pos rfl, if_neg h2, if_pos h3]; simp
  · by_cases h3 : k = minute ∨ (minute < k ∧ (k : Int) < W)
    · have h4 : ((minute + 1 ≤ k ∧ k < minute + 1 + (W - ((minute : Int) + 1)).toNat) ∧
          k < l.length) := by
        rcases h3 with h5 | ⟨h5, h6⟩
        · exact absurd h5 h1
        · omega
      rw [if_neg h1, if_pos h4, if_pos h3]; simp
    · have h4 : ¬ ((minute + 1 ≤ k ∧ k < minute + 1 + (W - ((minute : Int) + 1)).toNat) ∧
          k < l.length) := by
        intro ⟨⟨h5, h6⟩, _⟩
        apply h3
        right
        omega
      rw [if_neg h1, if_neg h4, if_neg h3]; simp

theorem fires_addCount (cx : Cronexpr) (job : JobsData) (r : RunSchema) (x : Int) :
    fires cx job { r with runningJobs := x } = fires cx job r := by
  unfold fires
  cases cx.Parse job.schedule <;> rfl

theorem jobsContribution_nil (cx : Cronexpr) (runSchema : RunSchema) (minute : Nat) :
    jobsContribution cx runSchema minute [] = fun _ => 0 := by
  funext k
  simp [jobsContribution]

theorem jobsContribution_cons (cx : Cronexpr) (runSchema : RunSchema) (minute : Nat)
    (job : JobsData) (jobs : List JobsData) (k : Nat) :
    jobsContribution cx runSchema minute (job :: jobs) k =
      (if fires cx job runSchema && covers minute job k then (1 : Int) else 0) +
        jobsContribution cx runSchema minute jobs k := by
  simp [jobsContribution]

/-- One bucket's pass over the job list: the jobs before the first one that does not
parse are applied; the pass ends normally when all parse and in `os.Exit(1)`
otherwise. It never panics. -/
theorem jobsLoop_eq (cx : Cronexpr) (len minute : Nat) (runSchema : RunSchema)
    (jobs : List JobsData) (l : List RunSchema) (hl : l.length = len) (hm : minute < len) :
    jobsLoop cx len minute runSchema jobs l =
      (if jobs.all (parses cx) then Run.done else Run.exit1)
        (addCounts (jobsContribution cx runSchema minute (jobs.takeWhile (parses cx))) l) := by
  induction jobs generalizing l with
  | nil => simp [jobsLoop, jobsContribution_nil, addCounts_zero]
  | cons job rest ih =>
    simp only [jobsLoop]
    cases hp : cx.Parse job.schedule with
    | none =>
      have h1 : parses cx job = false := by simp [parses, hp]
      simp [h1, List.takeWhile_cons, jobsContribution_nil, addCounts_zero]
    | some e =>
      have h1 : parses cx job = true := by simp [parses, hp]
      have h2 : fires cx job runSchema = due cx e runSchema := by simp [fires, hp]
      simp only [List.all_cons, h1, Bool.true_and, List.takeWhile_cons, if_true]
      by_cases hd : due cx e runSchema = true
      · rw [if_pos hd]
        subst hl
        rw [fire_eq minute job l hm]
        simp only
        rw [ih _ (length_addCounts _ _), addCounts_addCounts]
        refine congrArg _ (addCounts_congr _ _ _ ?_)
        intro k _
        rw [jobsContribution_cons, h2, hd]
        simp
      · rw [if_neg hd, ih l hl]
        refine congrArg _ (addCounts_congr _ _ _ ?_)
        intro k _
        rw [jobsContribution_cons, h2]
        simp [hd]

theorem takeWhile_parses_of_all (cx : Cronexpr) (jobs : List JobsData)
    (h : jobs.all (parses cx) = true) : jobs.takeWhile (parses cx) = jobs := by
  rw [List.takeWhile_eq_self_iff]
  intro j hj
  exact (List.all_eq_true.mp h) j hj

theorem jobsContribution_firesAt (cx : Cronexpr) (grid : List RunSchema) (m : Nat)
    (g : RunSchema) (hg : grid[m]? = some g) (x : Int) (jobs : List JobsData) (k : Nat) :
    jobsContribution cx { g with runningJobs := x } m jobs k =
      (jobs.map (fun j =>
        if firesAt cx grid j m && covers m j k then (1 : Int) else 0)).sum := by
  simp only [jobsContribution, firesAt, hg, fires_addCount]

/-- The pass over the buckets when every expression parses: it ends normally and has
added to every bucket the contributions of all the firings at the visited buckets. -/
theorem minuteLoop_done (cx : Cronexpr) (jobs : List JobsData) (grid : List RunSchema)
    (hall : jobs.all (parses cx) = true) (ms : List Nat) (hms : ∀ m ∈ ms, m < grid.length)
    (c : Nat → Int) :
    minuteLoop cx jobs grid.length ms (addCounts c grid) =
      Run.done (addCounts (fun k => c k + contribution cx grid jobs ms k) grid) := by
  induction ms generalizing c with
  | nil => simp [minuteLoop, contribution]
  | cons m rest ih =>
    have hm : m < grid.length := hms m (List.mem_cons_self _ _)
    obtain ⟨g, hg⟩ : ∃ g, grid[m]? = some g := ⟨grid[m], List.getElem?_eq_getElem hm⟩
    simp only [minuteLoop, getElem?_addCounts, hg, Option.map_some']
    rw [jobsLoop_eq cx grid.length m _ jobs _ (length_addCounts _ _) hm, if_pos hall,
      takeWhile_parses_of_all cx jobs hall]
    simp only
    rw [addCounts_addCounts, ih (fun m1 h1 => hms m1 (List.mem_cons_of_mem _ h1))]
    refine congrArg _ (addCounts_congr _ _ _ ?_)
    intro k _
    rw [jobsContribution_firesAt cx grid m g hg]
    simp [contribution, add_assoc]

/-- The pass over the buckets when some expression does not parse: it ends in
`os.Exit(1)` within the first bucket visited, after the jobs that precede the first
such expression have been applied to that bucket. -/
theorem minuteLoop_exit (cx : Cronexpr) (jobs : List JobsData) (grid : List RunSchema)
    (hall : jobs.all (parses cx) = false) (m : Nat) (rest : List Nat) (g : RunSchema)
    (hg : grid[m]? = some g) (c : Nat → Int) :
    minuteLoop cx jobs grid.length (m :: rest) (addCounts c grid) =
      Run.exit1 (addCounts
        (fun k => c k + jobsContribution cx g m (jobs.takeWhile (parses cx)) k) grid) := by
  have hm : m < grid.length := by
    rcases Nat.lt_or_ge m grid.length with h | h
    · exact h
    · rw [List.getElem?_eq_none h] at hg; cases hg
  simp only [minuteLoop, getElem?_addCounts, hg, Option.map_some']
  rw [jobsLoop_eq cx grid.length m _ jobs _ (length_addCounts _ _) hm, hall]
  simp only [Bool.false_eq_true, if_false]
  rw [addCounts_addCounts]
  refine congrArg _ (addCounts_congr _ _ _ ?_)
  intro k _
  simp only [jobsContribution, fires_addCount]

/-- The aggregation with every expression valid. -/
theorem processJobs_done (cx : Cronexpr) (jobs : List JobsData) (grid : List RunSchema)
    (hall : jobs.all (parses cx) = true) :
    processJobs cx jobs grid =
      Run.done (addCounts (contribution cx grid jobs (List.range grid.length)) grid) := by
  unfold processJobs
  have h := minuteLoop_done cx jobs grid hall (List.range grid.length)
    (fun m hm => List.mem_range.mp hm) (fun _ => 0)
  rw [addCounts_zero] at h
  rw [h]
  refine congrArg _ (addCounts_congr _ _ _ ?_)
  intro k _
  simp

/-- The aggregation when some expression does not parse and the grid is not empty: it
ends in `os.Exit(1)` inside the first bucket. -/
theorem processJobs_exit (cx : Cronexpr) (jobs : List JobsData) (g : RunSchema)
    (rest : List RunSchema) (hall : jobs.all (parses cx) = false) :
    processJobs cx jobs (g :: rest) =
      Run.exit1 (addCounts (jobsContribution cx g 0 (jobs.takeWhile (parses cx)))
        (g :: rest)) := by
  unfold processJobs
  have h := minuteLoop_exit cx jobs (g :: rest) hall 0 (List.range' 1 rest.length) g
    (by simp) (fun _ => 0)
  rw [addCounts_zero] at h
  have hr : List.range (g :: rest).length = 0 :: List.range' 1 rest.length := by
    rw [List.range_eq_range', List.length_cons, List.range'_succ]
  rw [hr, h]
  refine congrArg _ (addCounts_congr _ _ _ ?_)
  intro k _
  simp

/-- The aggregation never panics, and the grid it leaves, at its end or at the exit,
has the length of the grid it started from. -/
theorem processJobs_length (cx : Cronexpr) (jobs : List JobsData) (grid : List RunSchema) :
    ∃ out, (processJobs cx jobs grid = Run.done out ∨ processJobs cx jobs grid = Run.exit1 out) ∧
      out.length = grid.length := by
  cases hall : jobs.all (parses cx) with
  | true => exact ⟨_, Or.inl (processJobs_done cx jobs grid hall), length_addCounts _ _⟩
  | false =>
    cases grid with
    | nil => exact ⟨[], Or.inl rfl, rfl⟩
    | cons g rest =>
      exact ⟨_, Or.inr (processJobs_exit cx jobs g rest hall), length_addCounts _ _⟩

/-! ## The value `runMinutesRequired` -/

theorem ceil_round_le_one (d : ℚ) (hd : d ≤ 59) : ⌈roundFloat64 (d / 59)⌉ ≤ 1 := by
  have hx : d / 59 ≤ 1 := by
    rw [div_le_iff₀ (by norm_num)]; linarith
  rw [Int.ceil_le]
  rcases le_or_lt (d / 59) 0 with h0 | h0
  · have := roundFloat64_nonpos _ h0
    push_cast; linarith
  · exact roundFloat64_le_int _ h0 (by linarith) 1 (by simpa using hx)

/-- A duration of at most 59 seconds gives `runMinutesRequired ≤ 1`. -/
theorem runMinutesRequired_le_one (job : JobsData) (d : ℚ)
    (hfin : job.timeElapsed = GoFloat64.finite d) (hd : d ≤ 59) :
    runMinutesRequired job ≤ 1 := by
  obtain ⟨s, x⟩ := job
  simp only at hfin
  subst hfin
  rw [runMinutesRequired_finite]
  have h := ceil_round_le_one d hd
  generalize ⌈roundFloat64 (d / 59)⌉ = c at h ⊢
  split_ifs
  · exact h
  · decide

/-- A duration that is not finite gives the least `int`. -/
theorem runMinutesRequired_not_finite (job : JobsData)
    (h : ∀ d : ℚ, job.timeElapsed ≠ GoFloat64.finite d) :
    runMinutesRequired job = -9223372036854775808 := by
  obtain ⟨s, x⟩ := job
  cases x with
  | finite q => exact absurd rfl (h q)
  | posInf => rfl
  | negInf => rfl
  | nan => rfl

theorem ceil_div_59_values :
    (∀ d : ℚ, 0 < d → d ≤ 59 → ⌈d / 59⌉ = 1) ∧ ⌈(0 : ℚ) / 59⌉ = 0 ∧
      ⌈(137 / 2 : ℚ) / 59⌉ = 2 ∧ ⌈float34_2 / 59⌉ = 1 ∧ ⌈(3600 : ℚ) / 59⌉ = 62 := by
  refine ⟨?_, ?_, ?_, ?_, ?_⟩
  · intro d h0 h59
    rw [Int.ceil_eq_iff]
    constructor
    · have : 0 < d / 59 := by positivity
      simpa using this
    · rw [div_le_iff₀ (by norm_num)]
      simpa using h59
  · simp
  · rw [Int.ceil_eq_iff]; constructor <;> norm_num
  · rw [Int.ceil_eq_iff]; constructor <;> norm_num [float34_2]
  · rw [Int.ceil_eq_iff]; constructor <;> norm_num

/-- The rounded quotient by 59 of a `float64` has the ceiling of the exact quotient when
that ceiling is at least 2 and below `2 ^ 48`. -/
theorem ceil_round_div59 (d : ℚ) (hfl : IsFloat64 d) (h2 : 2 ≤ ⌈d / 59⌉)
    (hc : ⌈d / 59⌉ < 281474976710656) :
    ⌈roundFloat64 (d / 59)⌉ = ⌈d / 59⌉ := by
  have hle : d / 59 ≤ (⌈d / 59⌉ : ℚ) := Int.le_ceil _
  have hlt : ((⌈d / 59⌉ - 1 : Int) : ℚ) < d / 59 := by
    have := Int.ceil_lt_add_one (d / 59)
    push_cast; linarith
  have hcq : ((⌈d / 59⌉ : Int) : ℚ) ≤ 281474976710655 := by
    have : ⌈d / 59⌉ ≤ 281474976710655 := by omega
    exact_mod_cast this
  have h1q : (1 : ℚ) ≤ ((⌈d / 59⌉ - 1 : Int) : ℚ) := by
    have : (1 : Int) ≤ ⌈d / 59⌉ - 1 := by omega
    exact_mod_cast this
  have h0 : 0 < d / 59 := by linarith
  rw [Int.ceil_eq_iff]
  constructor
  · have := lt_roundFloat64_div59 d hfl (⌈d / 59⌉ - 1) (by omega) hlt (by linarith)
    push_cast at this ⊢
    exact this
  · exact roundFloat64_le_int _ h0 (by linarith) _ hle

/-- The value `runMinutesRequired` of a duration `d` that is a `float64` with
`⌈d / 59⌉ < 2 ^ 48`: it is `⌈d / 59⌉`, or both are at most 1 and it is not positive
(a quotient at most 0, or one rounded to zero). -/
theorem runMinutesRequired_spec (job : JobsData) (d : ℚ)
    (hfin : job.timeElapsed = GoFloat64.finite d) (hfl : IsFloat64 d)
    (hc : ⌈d / 59⌉ < 281474976710656) :
    (runMinutesRequired job = ⌈d / 59⌉ ∧ 1 ≤ ⌈d / 59⌉) ∨
      (runMinutesRequired job ≤ 0 ∧ ⌈d / 59⌉ ≤ 1) := by
  obtain ⟨s, x⟩ := job
  simp only at hfin
  subst hfin
  rw [runMinutesRequired_finite]
  rcases le_or_lt 2 ⌈d / 59⌉ with h2 | h2
  · left
    rw [ceil_round_div59 d hfl h2 hc, if_pos ⟨by omega, by omega⟩]
    exact ⟨rfl, by omega⟩
  · have h1 : ⌈roundFloat64 (d / 59)⌉ ≤ 1 := by
      apply ceil_round_le_one
      have : d / 59 ≤ 1 := by
        have h3 : ⌈d / 59⌉ ≤ 1 := by omega
        have := Int.ceil_le.mp h3
        simpa using this
      rw [div_le_iff₀ (by norm_num)] at this
      linarith
    have h3 : 1 ≤ ⌈d / 59⌉ ∨ ⌈roundFloat64 (d / 59)⌉ ≤ 0 := by
      rcases le_or_lt (d / 59) 0 with h0 | h0
      · right
        rw [Int.ceil_le]
        simpa using roundFloat64_nonpos _ h0
      · left
        exact Int.ceil_pos.mpr h0
    generalize ⌈roundFloat64 (d / 59)⌉ = c at h1 h3 ⊢
    by_cases hr : -9223372036854775808 ≤ c ∧ c < 9223372036854775808
    · rw [if_pos hr]
      omega
    · rw [if_neg hr]
      right
      exact ⟨by decide, by omega⟩

theorem isFloat64_values :
    IsFloat64 0 ∧ IsFloat64 (137 / 2) ∧ IsFloat64 3600 ∧ IsFloat64 float34_2 := by
  refine ⟨⟨0, 0, by decide, by norm_num⟩, ⟨137, -1, by decide, ?_⟩,
    ⟨3600, 0, by decide, by norm_num⟩, ⟨2406611050876109, -46, by decide, ?_⟩⟩
  · rw [zpow_neg]
    norm_num
  · rw [zpow_neg]
    norm_num [float34_2]

theorem runMinutesRequired_values (s : String) :
    runMinutesRequired { schedule := s, timeElapsed := GoFloat64.finite 0 } = 0 ∧
    runMinutesRequired { schedule := s, timeElapsed := GoFloat64.finite (137 / 2) } = 2 ∧
    runMinutesRequired { schedule := s, timeElapsed := GoFloat64.finite float34_2 } = 1 ∧
    runMinutesRequired { schedule := s, timeElapsed := GoFloat64.finite 3600 } = 62 := by
  obtain ⟨_, _, hv2, hv3, hv4⟩ := ceil_div_59_values
  refine ⟨?_, ?_, ?_, ?_⟩
  · rw [runMinutesRequired_finite]
    have h1 := roundFloat64_nonneg ((0 : ℚ) / 59) (by norm_num)
    have h2 := roundFloat64_nonpos ((0 : ℚ) / 59) (by norm_num)
    have h3 : roundFloat64 ((0 : ℚ) / 59) = 0 := le_antisymm h2 h1
    rw [h3]
    simp
  · rcases runMinutesRequired_spec
        { schedule := s, timeElapsed := GoFloat64.finite (137 / 2) } (137 / 2) rfl
        isFloat64_values.2.1 (by rw [hv2]; decide) with ⟨h, _⟩ | ⟨_, h⟩
    · rw [h, hv2]
    · rw [hv2] at h; exact absurd h (by decide)
  · rw [runMinutesRequired_finite]
    have hx0 : (0 : ℚ) < float34_2 / 59 := by norm_num [float34_2]
    have hup := roundFloat64_le_int (float34_2 / 59) hx0 (by norm_num [float34_2]) 1
      (by norm_num [float34_2])
    have hexp : float64Exp (float34_2 / 59) ≤ -1 := by
      have := float64Exp_le (float34_2 / 59) 0 (by decide) hx0 (by norm_num [float34_2])
      omega
    have hlo := le_roundFloat64_of_exp (float34_2 / 59) 1 (-1) hexp
      (by rw [zpow_neg]; norm_num [float34_2])
    have hc : ⌈roundFloat64 (float34_2 / 59)⌉ = 1 := by
      rw [Int.ceil_eq_iff]
      constructor
      · have h : (0 : ℚ) < (1 : Int) * 2 ^ (-1 : Int) := by
          rw [zpow_neg]; norm_num
        push_cast at hlo h ⊢
        linarith
      · exact hup
    rw [hc]
    rfl
  · rcases runMinutesRequired_spec
        { schedule := s, timeElapsed := GoFloat64.finite 3600 } 3600 rfl
        isFloat64_values.2.2.1 (by rw [hv4]; decide) with ⟨h, _⟩ | ⟨_, h⟩
    · rw [h, hv4]
    · rw [hv4] at h; exact absurd h (by decide)

/-! ## The buckets a firing raises -/

/-- With `runMinutesRequired ≤ 1` a firing raises its own bucket only. -/
theorem covers_of_short (job : JobsData) (hd : runMinutesRequired job ≤ 1) (i k : Nat) :
    covers i job k = decide (i = k) := by
  unfold covers
  have hr := (runMinutesRequired_range job).1
  have hw := wrap64_le ((i : Int) + runMinutesRequired job) (by omega)
  rw [decide_eq_decide]
  omega

/-- With `max 1 runMinutesRequired = S` and no overflow of `minute + S`, a firing at
`m` raises the buckets `m, …, m + S - 1`. -/
theorem covers_iff (job : JobsData) (S : Nat)
    (hS : max 1 (runMinutesRequired job) = (S : Int)) (m k : Nat)
    (hm : (m : Int) + S < 9223372036854775808) :
    covers m job k = true ↔ m ≤ k ∧ k < m + S := by
  simp only [covers, decide_eq_true_eq]
  have hr := (runMinutesRequired_range job).1
  rcases le_total 1 (runMinutesRequired job) with h | h
  · rw [max_eq_right h] at hS
    rw [wrap64_eq_self _ (by omega) (by omega)]
    omega
  · rw [max_eq_left h] at hS
    have hw := wrap64_le ((m : Int) + runMinutesRequired job) (by omega)
    omega

/-- For a duration `d` that is a `float64` with `⌈d / 59⌉ < 2 ^ 48`, a firing at a
bucket `i < n` of a grid of `n < 2 ^ 62` buckets raises the buckets
`i ≤ k ≤ i + max 1 ⌈d / 59⌉ - 1`. -/
theorem covers_exact (job : JobsData) (d : ℚ) (hfin : job.timeElapsed = GoFloat64.finite d)
    (hfl : IsFloat64 d) (hc : ⌈d / 59⌉ < 281474976710656)
    (i n k : Nat) (hi : i < n) (hn : (n : Int) < 4611686018427387904) :
    covers i job k = true ↔ i ≤ k ∧ (k : Int) ≤ (i : Int) + max 1 ⌈d / 59⌉ - 1 := by
  simp only [covers, decide_eq_true_eq]
  have hr := (runMinutesRequired_range job).1
  rcases runMinutesRequired_spec job d hfin hfl hc with ⟨h1, h2⟩ | ⟨h1, h2⟩
  · rw [h1, wrap64_eq_self _ (by omega) (by omega), max_eq_right h2]
    omega
  · have hw := wrap64_le ((i : Int) + runMinutesRequired job) (by omega)
    rw [max_eq_left h2]
    omega

/-- The count of a bucket as a number of pairs, when every firing raises the buckets of
the formula `i ≤ k ≤ i + max 1 ⌈d / 59⌉ - 1`. -/
theorem contribution_eq_card_of (cx : Cronexpr) (grid : List RunSchema)
    (jobs : List JobsData) (k : Nat)
    (hcov : ∀ j ∈ jobs, ∀ i, i < grid.length → (covers i j k = true ↔
      i ≤ k ∧ (k : Int) ≤ (i : Int) + max 1 (exactMinutes j.timeElapsed) - 1)) :
    contribution cx grid jobs (List.range grid.length) k =
      ((contributingPairs cx grid jobs k).card : Int) := by
  have h1 : ∀ (n : Nat) (f : Nat → Int),
      ((List.range n).map f).sum = ∑ i ∈ Finset.range n, f i := fun _ _ => rfl
  unfold contribution contributingPairs
  rw [h1, Finset.sum_range, Finset.natCast_card_filter, Fintype.sum_prod_type,
    Finset.sum_comm]
  refine Finset.sum_congr rfl (fun i _ => ?_)
  rw [← Fin.sum_univ_get']
  refine Finset.sum_congr rfl (fun j _ => ?_)
  have hc := hcov (jobs.get j) (List.get_mem _ _ _) i.1 i.2
  simp only [List.get_eq_getElem, Bool.and_eq_true] at hc ⊢
  by_cases h : firesAt cx grid jobs[j.1] i.1 = true
  · by_cases h2 : covers i.1 jobs[j.1] k = true
    · have h3 := hc.mp h2
      simp [h, h2, h3]
    · have h4 : ¬ (i.1 ≤ k ∧ firesAt cx grid jobs[j.1] i.1 = true ∧
          (k : Int) ≤ (i.1 : Int) + max 1 (exactMinutes jobs[j.1].timeElapsed) - 1) :=
        fun h4 => h2 (hc.mpr ⟨h4.1, h4.2.2⟩)
      rw [if_neg (fun h5 => h2 h5.2), if_neg h4]
  · have h4 : ¬ (i.1 ≤ k ∧ firesAt cx grid jobs[j.1] i.1 = true ∧
        (k : Int) ≤ (i.1 : Int) + max 1 (exactMinutes jobs[j.1].timeElapsed) - 1) :=
      fun h4 => h h4.2.1
    rw [if_neg (fun h5 => h h5.1), if_neg h4]

/-- The count of a bucket as a number of pairs, for durations that are `float64`
numbers with `⌈d / 59⌉ < 2 ^ 48` on a grid of fewer than `2 ^ 62` buckets. -/
theorem contribution_eq_card (cx : Cronexpr) (grid : List RunSchema) (jobs : List JobsData)
    (k : Nat)
    (hlen : (grid.length : Int) < 4611686018427387904)
    (hdur : ∀ j ∈ jobs, ∃ d : ℚ, j.timeElapsed = GoFloat64.finite d ∧ IsFloat64 d ∧
      ⌈d / 59⌉ < 281474976710656) :
    contribution cx grid jobs (List.range grid.length) k =
      ((contributingPairs cx grid jobs k).card : Int) := by
  apply contribution_eq_card_of
  intro j hj i hi
  obtain ⟨d, hfin, hfl, hb⟩ := hdur j hj
  rw [hfin]
  exact covers_exact j d hfin hfl hb i grid.length k hi hlen

/-- A job that fires at every bucket and raises one bucket adds exactly one to
every bucket. -/
theorem contribution_everywhere (cx : Cronexpr) (grid : List RunSchema) (job : JobsData)
    (hf : ∀ i, i < grid.length → firesAt cx grid job i = true)
    (hd : runMinutesRequired job ≤ 1) (k : Nat) (hk : k < grid.length) :
    contribution cx grid [job] (List.range grid.length) k = 1 := by
  have h1 : ∀ (n : Nat) (f : Nat → Int),
      ((List.range n).map f).sum = ∑ i ∈ Finset.range n, f i := fun _ _ => rfl
  unfold contribution
  rw [h1]
  have h2 : ∀ i ∈ Finset.range grid.length,
      ([job].map (fun j => if firesAt cx grid j i && covers i j k then (1 : Int) else 0)).sum =
        if k = i then 1 else 0 := by
    intro i hi
    have hi1 : i < grid.length := Finset.mem_range.mp hi
    simp only [List.map_cons, List.map_nil, List.sum_cons, List.sum_nil, add_zero,
      hf i hi1, covers_of_short job hd, Bool.true_and, decide_eq_true_eq]
    by_cases h : i = k
    · simp [h]
    · have : ¬ k = i := fun h1 => h h1.symm
      simp [h, this]
  rw [Finset.sum_congr rfl h2, Finset.sum_ite_eq]
  simp [hk]

/-! ## The grid -/

theorem buildGrid_runningJobs (timeFrameSec : Int) :
    ∀ r ∈ buildGrid timeFrameSec, r.runningJobs = 0 := by
  intro r hr
  simp only [buildGrid, List.mem_map] at hr
  obtain ⟨ts, _, rfl⟩ := hr
  rfl

theorem filter_seconds (N : Nat) :
    ((List.range N).map (fun k : Nat => tsStart + (k : Int))).filter
        (fun ts => decide (Int.tmod ts 60 = 0)) =
      (List.range ((N + 59) / 60)).map (fun i : Nat => tsStart + 60 * (i : Int)) := by
  induction N with
  | zero => rfl
  | succ N ih =>
    rw [List.range_succ, List.map_append, List.filter_append, ih]
    have he : Int.tmod (tsStart + (N : Int)) 60 = (tsStart + (N : Int)) % 60 :=
      Int.tmod_eq_emod (by unfold tsStart; omega) (by omega)
    by_cases h : N % 60 = 0
    · have h1 : (N + 1 + 59) / 60 = (N + 59) / 60 + 1 := by omega
      have h2 : Int.tmod (tsStart + (N : Int)) 60 = 0 := by
        rw [he]; unfold tsStart; omega
      have h3 : tsStart + (N : Int) = tsStart + 60 * (((N + 59) / 60 : Nat) : Int) := by
        omega
      rw [h1, List.range_succ, List.map_append]
      simp only [List.map_cons, List.map_nil, List.filter_cons, h2, decide_True, if_true,
        List.filter_nil]
      rw [h3]
    · have h1 : (N + 1 + 59) / 60 = (N + 59) / 60 := by omega
      have h2 : ¬ Int.tmod (tsStart + (N : Int)) 60 = 0 := by
        rw [he]; unfold tsStart; omega
      rw [h1]
      simp only [List.map_cons, List.map_nil, List.filter_cons, h2, decide_False,
        Bool.false_eq_true, if_false, List.filter_nil, List.append_nil]

/-- The grid built for `timeFrameSec`: bucket `i` is the one of second
`tsStart + 60 * i`, for `i < gridLength timeFrameSec`. -/
theorem buildGrid_eq_map (t : Int) :
    buildGrid t =
      (List.range (gridLength t)).map (fun i : Nat => mkRunSchema (tsStart + 60 * (i : Int))) := by
  unfold buildGrid gridLength
  simp only
  rw [filter_seconds, List.map_map]
  rfl

theorem buildGrid_length (t : Int) : (buildGrid t).length = gridLength t := by
  rw [buildGrid_eq_map]; simp

theorem gridLength_minutes (m : Nat)
    (hm : tsStart + 60 * (m : Int) < 9223372036854775808) :
    gridLength (60 * (m : Int)) = m := by
  unfold gridLength
  unfold tsStart at hm ⊢
  rw [wrap64_eq_self _ (by omega) hm]
  omega

/-- The grid of a window of `60 * m` seconds that ends inside the range of `int`:
bucket `i` is the one of second `tsStart + 60 * i`, for `i < m`. -/
theorem buildGrid_eq (m : Nat) (hm : tsStart + 60 * (m : Int) < 9223372036854775808) :
    buildGrid (60 * (m : Int)) =
      (List.range m).map (fun i : Nat => mkRunSchema (tsStart + 60 * (i : Int))) := by
  rw [buildGrid_eq_map, gridLength_minutes m hm]

theorem days_eq_minutes (D : Int) (hD : 0 ≤ D) :
    D * SEC_IN_DAY = 60 * ((1440 * D.toNat : Nat) : Int) := by
  simp only [SEC_IN_DAY]
  push_cast
  rw [Int.toNat_of_nonneg hD]
  ring

theorem day_eq_minutes : (86400 : Int) = 60 * ((1440 : Nat) : Int) := by norm_num

theorem buildGrid_day_eq :
    buildGrid 86400 =
      (List.range 1440).map (fun i : Nat => mkRunSchema (tsStart + 60 * (i : Int))) := by
  rw [day_eq_minutes, buildGrid_eq 1440 (by decide)]

theorem buildGrid_day_length : (buildGrid 86400).length = 1440 := by
  rw [buildGrid_day_eq]; simp

theorem buildGrid_day_ne_nil : buildGrid 86400 ≠ [] := by
  rw [buildGrid_day_eq]
  simp

theorem buildGrid_minutes_length (m : Nat)
    (hm : tsStart + 60 * (m : Int) < 9223372036854775808) :
    (buildGrid (60 * (m : Int))).length = m := by
  rw [buildGrid_eq m hm]; simp

/-- The number of buckets of a window of `D ≥ 0` days that ends inside the range of
`int`. -/
theorem gridLength_days (D : Int) (hD : 0 ≤ D)
    (hfit : tsStart + D * SEC_IN_DAY < 9223372036854775808) :
    gridLength (D * SEC_IN_DAY) = 1440 * D.toNat := by
  have h := days_eq_minutes D hD
  rw [h] at hfit ⊢
  exact gridLength_minutes _ hfit

/-! ## Further lemmas on contributions -/

theorem contribution_append (cx : Cronexpr) (grid : List RunSchema) (A B : List JobsData)
    (ms : List Nat) (k : Nat) :
    contribution cx grid (A ++ B) ms k =
      contribution cx grid A ms k + contribution cx grid B ms k := by
  unfold contribution
  induction ms with
  | nil => simp
  | cons m ms ih =>
    simp only [List.map_cons, List.sum_cons]
    rw [ih, List.map_append, List.sum_append]
    ring

theorem contribution_perm (cx : Cronexpr) (grid : List RunSchema) (A B : List JobsData)
    (h : A.Perm B) (ms : List Nat) (k : Nat) :
    contribution cx grid A ms k = contribution cx grid B ms k := by
  unfold contribution
  congr 1
  apply List.map_congr_left
  intro m _
  exact (h.map _).sum_eq

/-- What one job adds to bucket `k`: the number of buckets `m` of the grid at which it
fires and from which it occupies `k`. -/
theorem contribution_single (cx : Cronexpr) (grid : List RunSchema) (job : JobsData)
    (n k : Nat) :
    contribution cx grid [job] (List.range n) k =
      (((Finset.range n).filter
        (fun m => firesAt cx grid job m = true ∧ covers m job k = true)).card : Int) := by
  have h1 : ∀ (n : Nat) (f : Nat → Int),
      ((List.range n).map f).sum = ∑ i ∈ Finset.range n, f i := fun _ _ => rfl
  unfold contribution
  rw [h1, Finset.natCast_card_filter]
  refine Finset.sum_congr rfl (fun m _ => ?_)
  simp only [List.map_cons, List.map_nil, List.sum_cons, List.sum_nil, add_zero,
    Bool.and_eq_true]

theorem contribution_cons (cx : Cronexpr) (grid : List RunSchema) (job : JobsData)
    (jobs : List JobsData) (ms : List Nat) (k : Nat) :
    contribution cx grid (job :: jobs) ms k =
      contribution cx grid [job] ms k + contribution cx grid jobs ms k :=
  contribution_append cx grid [job] jobs ms k

theorem contribution_nil (cx : Cronexpr) (grid : List RunSchema) (ms : List Nat) (k : Nat) :
    contribution cx grid [] ms k = 0 := by
  unfold contribution
  induction ms with
  | nil => rfl
  | cons m ms ih => simp

theorem parses_of_firesAt (cx : Cronexpr) (grid : List RunSchema) (job : JobsData) (i : Nat)
    (h : firesAt cx grid job i = true) : parses cx job = true := by
  unfold firesAt fires at h
  unfold parses
  cases hp : cx.Parse job.schedule with
  | none =>
    rw [hp] at h
    cases hg : grid[i]? with
    | none => rw [hg] at h; cases h
    | some r => rw [hg] at h; cases h
  | some e => rfl

/-- What one job adds to bucket `k` when it fires exactly at the buckets `m` with `p m`
and raises `S` buckets, no sum of `main` leaving the range of `int`. -/
theorem contribution_single_of (cx : Cronexpr) (grid : List RunSchema) (job : JobsData)
    (n k S : Nat) (p : Nat → Prop) [DecidablePred p]
    (hf : ∀ m, m < n → firesAt cx grid job m = decide (p m))
    (hS : max 1 (runMinutesRequired job) = (S : Int))
    (hn : (n : Int) + S < 9223372036854775808) :
    contribution cx grid [job] (List.range n) k =
      (((Finset.range n).filter (fun m => p m ∧ m ≤ k ∧ k < m + S)).card : Int) := by
  rw [contribution_single]
  congr 2
  apply Finset.filter_congr
  intro m hm
  have hm1 : m < n := Finset.mem_range.mp hm
  rw [hf m hm1, covers_iff job S hS m k (by omega), decide_eq_true_eq]

/-- What one job that raises one bucket per firing adds to bucket `k`. -/
theorem contribution_short (cx : Cronexpr) (grid : List RunSchema) (job : JobsData)
    (hd : runMinutesRequired job ≤ 1) (n k : Nat) (hk : k < n) :
    contribution cx grid [job] (List.range n) k =
      if firesAt cx grid job k = true then 1 else 0 := by
  rw [contribution_single]
  have h : (Finset.range n).filter
      (fun m => firesAt cx grid job m = true ∧ covers m job k = true) =
      if firesAt cx grid job k = true then {k} else ∅ := by
    ext m
    simp only [Finset.mem_filter, Finset.mem_range, covers_of_short job hd,
      decide_eq_true_eq]
    split_ifs with hfk
    · simp only [Finset.mem_singleton]
      constructor
      · intro h; exact h.2.2
      · intro h; subst h; exact ⟨hk, hfk, rfl⟩
    · simp only [Finset.not_mem_empty, iff_false]
      intro h
      rw [h.2.2] at h
      exact hfk h.2.1
  rw [h]
  split_ifs <;> simp

theorem card_hourly_two (n k : Nat) (hk : k < n) :
    ((Finset.range n).filter (fun m => m % 60 = 0 ∧ m ≤ k ∧ k < m + 2)).card =
      if k % 60 = 0 ∨ k % 60 = 1 then 1 else 0 := by
  by_cases h : k % 60 = 0 ∨ k % 60 = 1
  · rw [if_pos h]
    have : (Finset.range n).filter (fun m => m % 60 = 0 ∧ m ≤ k ∧ k < m + 2) =
        {k - k % 60} := by
      ext m
      simp only [Finset.mem_filter, Finset.mem_range, Finset.mem_singleton]
      omega
    rw [this, Finset.card_singleton]
  · rw [if_neg h]
    have : (Finset.range n).filter (fun m => m % 60 = 0 ∧ m ≤ k ∧ k < m + 2) = ∅ := by
      ext m
      simp only [Finset.mem_filter, Finset.mem_range, Finset.not_mem_empty, iff_false]
      omega
    rw [this, Finset.card_empty]

theorem card_five_one (n k : Nat) (hk : k < n) :
    ((Finset.range n).filter (fun m => m % 60 = 5 ∧ m ≤ k ∧ k < m + 1)).card =
      if k % 60 = 5 then 1 else 0 := by
  by_cases h : k % 60 = 5
  · rw [if_pos h]
    have : (Finset.range n).filter (fun m => m % 60 = 5 ∧ m ≤ k ∧ k < m + 1) = {k} := by
      ext m
      simp only [Finset.mem_filter, Finset.mem_range, Finset.mem_singleton]
      omega
    rw [this, Finset.card_singleton]
  · rw [if_neg h]
    have : (Finset.range n).filter (fun m => m % 60 = 5 ∧ m ≤ k ∧ k < m + 1) = ∅ := by
      ext m
      simp only [Finset.mem_filter, Finset.mem_range, Finset.not_mem_empty, iff_false]
      omega
    rw [this, Finset.card_empty]

theorem card_hourly_62 (n k : Nat) (hk : k < n) :
    ((Finset.range n).filter (fun m => m % 60 = 0 ∧ m ≤ k ∧ k < m + 62)).card =
      if 60 ≤ k ∧ (k % 60 = 0 ∨ k % 60 = 1) then 2 else 1 := by
  by_cases h : 60 ≤ k ∧ (k % 60 = 0 ∨ k % 60 = 1)
  · rw [if_pos h]
    have : (Finset.range n).filter (fun m => m % 60 = 0 ∧ m ≤ k ∧ k < m + 62) =
        {k - k % 60, k - k % 60 - 60} := by
      ext m
      simp only [Finset.mem_filter, Finset.mem_range, Finset.mem_insert,
        Finset.mem_singleton]
      omega
    rw [this, Finset.card_pair (by omega)]
  · rw [if_neg h]
    have : (Finset.range n).filter (fun m => m % 60 = 0 ∧ m ≤ k ∧ k < m + 62) =
        {k - k % 60} := by
      ext m
      simp only [Finset.mem_filter, Finset.mem_range, Finset.mem_singleton]
      omega
    rw [this, Finset.card_singleton]


/-! ## The sample `cronexpr` on the grid -/

theorem everyMinute_firesAt (m i : Nat) (hi : i < m)
    (hm : tsStart + 60 * (m : Int) < 9223372036854775808) (x : GoFloat64) :
    firesAt sampleCron (buildGrid (60 * (m : Int)))
      { schedule := "* * * * *", timeElapsed := x } i = true := by
  have hp : sampleCron.Parse "* * * * *" = some SampleExpr.everyMinute := by
    show sampleParse "* * * * *" = some SampleExpr.everyMinute
    decide
  rw [buildGrid_eq m hm]
  simp only [firesAt, List.getElem?_map, List.getElem?_range hi, Option.map_some', fires, hp]
  simp only [due, mkRunSchema, sampleCron, sampleNext, tsStart, decide_eq_true_eq]
  omega

theorem hourly_firesAt (m i : Nat) (hi : i < m)
    (hm : tsStart + 60 * (m : Int) < 9223372036854775808) (x : GoFloat64) :
    firesAt sampleCron (buildGrid (60 * (m : Int)))
      { schedule := "0 * * * *", timeElapsed := x } i = decide (i % 60 = 0) := by
  have hp : sampleCron.Parse "0 * * * *" = some (SampleExpr.atMinute 0) := by
    show sampleParse "0 * * * *" = some (SampleExpr.atMinute 0)
    decide
  rw [buildGrid_eq m hm]
  simp only [firesAt, List.getElem?_map, List.getElem?_range hi, Option.map_some', fires, hp]
  simp only [due, mkRunSchema, sampleCron, sampleNext, tsStart]
  rw [decide_eq_decide]
  push_cast
  omega

theorem fiveMinute_firesAt (m i : Nat) (hi : i < m)
    (hm : tsStart + 60 * (m : Int) < 9223372036854775808) (x : GoFloat64) :
    firesAt sampleCron (buildGrid (60 * (m : Int)))
      { schedule := "5 * * * *", timeElapsed := x } i = decide (i % 60 = 5) := by
  have hp : sampleCron.Parse "5 * * * *" = some (SampleExpr.atMinute 5) := by
    show sampleParse "5 * * * *" = some (SampleExpr.atMinute 5)
    decide
  rw [buildGrid_eq m hm]
  simp only [firesAt, List.getElem?_map, List.getElem?_range hi, Option.map_some', fires, hp]
  simp only [due, mkRunSchema, sampleCron, sampleNext, tsStart]
  rw [decide_eq_decide]
  push_cast
  omega

theorem everyMinute_firesAt_day (i : Nat) (hi : i < 1440) (x : GoFloat64) :
    firesAt sampleCron (buildGrid 86400)
      { schedule := "* * * * *", timeElapsed := x } i = true := by
  rw [day_eq_minutes]
  exact everyMinute_firesAt 1440 i hi (by decide) x

theorem hourly_firesAt_day (i : Nat) (hi : i < 1440) (x : GoFloat64) :
    firesAt sampleCron (buildGrid 86400)
      { schedule := "0 * * * *", timeElapsed := x } i = decide (i % 60 = 0) := by
  rw [day_eq_minutes]
  exact hourly_firesAt 1440 i hi (by decide) x

theorem fiveMinute_firesAt_day (i : Nat) (hi : i < 1440) (x : GoFloat64) :
    firesAt sampleCron (buildGrid 86400)
      { schedule := "5 * * * *", timeElapsed := x } i = decide (i % 60 = 5) := by
  rw [day_eq_minutes]
  exact fiveMinute_firesAt 1440 i hi (by decide) x

/-! ## Lemmas on the ranking -/

theorem Less_eq_false_iff (a b : RunSchema) :
    Less a b = false ↔ a.runningJobs ≤ b.runningJobs := by
  simp [Less]

/-- The method `Less` of `RunSchemaListSort` is an ordering `sort.Sort` accepts. -/
theorem lessOK_Less : LessOK Less := by
  refine ⟨fun a => ?_, fun a b c hab hbc => ?_, fun a b c hab hbc => ?_⟩
  · simp [Less]
  · simp only [Less, decide_eq_true_eq] at hab hbc ⊢
    omega
  · rw [Less_eq_false_iff] at hab hbc ⊢
    omega

theorem rank_perm (sp : SortPkg) (grid : List RunSchema) : (rank sp grid).Perm grid :=
  sp.perm Less grid

theorem rank_pairwise (sp : SortPkg) (grid : List RunSchema) :
    (rank sp grid).Pairwise (fun a b => a.runningJobs ≥ b.runningJobs) := by
  refine (sp.sorted Less grid lessOK_Less).imp ?_
  intro a b h
  exact (Less_eq_false_iff b a).mp h

/-- The first row of a ranking of a grid that is not empty: a bucket of the grid with
the greatest count. -/
theorem rank_head_spec (sp : SortPkg) (out : List RunSchema) (hne : out ≠ []) :
    ∃ first, (rank sp out).head? = some first ∧ first ∈ out ∧
      ∀ b ∈ out, b.runningJobs ≤ first.runningJobs := by
  have hperm := rank_perm sp out
  have hsorted := rank_pairwise sp out
  cases hr : rank sp out with
  | nil =>
    rw [hr] at hperm
    exact absurd (List.length_eq_zero.mp hperm.length_eq.symm) hne
  | cons first tail =>
    rw [hr] at hperm hsorted
    refine ⟨first, rfl, hperm.subset (List.mem_cons_self _ _), ?_⟩
    intro b hb
    rcases List.mem_cons.mp (hperm.symm.subset hb) with h | h
    · rw [h]
    · exact (List.pairwise_cons.mp hsorted).1 b h

/-! ## C1: the aggregated counts -/

/-- A duration of `2 ^ 70` seconds: `math.Ceil(x / 59)` is beyond the range of `int`
and the conversion gives the smallest `int`. -/
theorem runMinutesRequired_long (s : String) :
    runMinutesRequired
      { schedule := s, timeElapsed := GoFloat64.finite 1180591620717411303424 } =
      -9223372036854775808 := by
  rw [runMinutesRequired_finite]
  have hx0 : (0 : ℚ) < (1180591620717411303424 : ℚ) / 59 := by norm_num
  have hexp : float64Exp ((1180591620717411303424 : ℚ) / 59) ≤ 63 := by
    have := float64Exp_le ((1180591620717411303424 : ℚ) / 59) 64 (by decide) hx0
      (by norm_num)
    omega
  have hlo := le_roundFloat64_of_exp ((1180591620717411303424 : ℚ) / 59) 1 63 hexp
    (by norm_num)
  have hc : (9223372036854775808 : Int) ≤
      ⌈roundFloat64 ((1180591620717411303424 : ℚ) / 59)⌉ := by
    have h1 : ((9223372036854775808 : Int) : ℚ) ≤
        roundFloat64 ((1180591620717411303424 : ℚ) / 59) := by
      have h2 : ((1 : Int) : ℚ) * 2 ^ (63 : Int) = ((9223372036854775808 : Int) : ℚ) := by
        norm_num
      rw [← h2]; exact hlo
    exact_mod_cast le_trans h1 (Int.le_ceil _)
  rw [if_neg (by omega)]

theorem sampleJobs_durations :
    ∀ j ∈ sampleJobs, ∃ d : ℚ, j.timeElapsed = GoFloat64.finite d ∧ IsFloat64 d ∧
      ⌈d / 59⌉ < 281474976710656 := by
  obtain ⟨_, _, hv2, hv3, _⟩ := ceil_div_59_values
  intro j hj
  simp only [sampleJobs, List.mem_cons, List.mem_singleton, List.not_mem_nil, or_false] at hj
  rcases hj with rfl | rfl
  · exact ⟨137 / 2, rfl, isFloat64_values.2.1, by rw [hv2]; decide⟩
  · exact ⟨float34_2, rfl, isFloat64_values.2.2.2, by rw [hv3]; decide⟩

/-- C1, counterexample. One job at the start of every hour with a duration of
`2 ^ 70` seconds, on the grid of one day: `ceil(d / 59)` does not fit an `int`, the
conversion gives the smallest `int`, and each firing raises its own bucket only. Bucket
1 ends with count 0 although the pair (job 0, bucket 0) satisfies the three conditions
of the claim. -/
theorem processJobs_long_duration :
    ∃ out, processJobs sampleCron longJobs (buildGrid 86400) = Run.done out ∧
      (out[1]?).map (fun r : RunSchema => r.runningJobs) = some 0 ∧
      1 ≤ (contributingPairs sampleCron (buildGrid 86400) longJobs 1).card := by
  refine ⟨_, processJobs_done sampleCron longJobs (buildGrid 86400) (by decide), ?_, ?_⟩
  · rw [getElem?_addCounts, buildGrid_day_length]
    have hc := contribution_short sampleCron (buildGrid 86400)
      { schedule := "0 * * * *", timeElapsed := GoFloat64.finite 1180591620717411303424 }
      (by rw [runMinutesRequired_long]; decide) 1440 1 (by decide)
    rw [hourly_firesAt_day 1 (by decide)] at hc
    have hc2 : contribution sampleCron (buildGrid 86400) longJobs (List.range 1440) 1 = 0 := by
      exact hc.trans (by decide)
    rw [hc2, buildGrid_day_eq]
    simp [mkRunSchema]
  · apply Finset.card_pos.mpr
    have h0 : 0 < (buildGrid 86400).length := by rw [buildGrid_day_length]; decide
    refine ⟨(⟨0, by decide⟩, ⟨0, h0⟩), ?_⟩
    simp only [contributingPairs, Finset.mem_filter, Finset.mem_univ, true_and]
    refine ⟨by decide, ?_, ?_⟩
    · exact hourly_firesAt_day 0 (by decide) _
    · show (1 : Int) ≤ 0 + max 1 ⌈(1180591620717411303424 : ℚ) / 59⌉ - 1
      have hc : (2 : Int) ≤ ⌈(1180591620717411303424 : ℚ) / 59⌉ := by
        have h1 : ((2 : Int) : ℚ) ≤ 1180591620717411303424 / 59 := by norm_num
        exact_mod_cast le_trans h1 (Int.le_ceil _)
      have := le_max_right 1 ⌈(1180591620717411303424 : ℚ) / 59⌉
      omega

/-- C1, amended. For every job list whose expressions all parse and whose durations are
`float64` numbers `d_j` with `⌈d_j / 59⌉ < 2 ^ 48`, and every grid of `n < 2 ^ 62`
buckets whose counts are zero, aggregation ends normally, keeps the number of buckets, and
leaves in bucket `k` the bucket it found there with its running count set to the number
of pairs (job `j`, bucket `i`) with `i ≤ k`, `j` firing at `i`, and
`k ≤ i + max 1 ⌈d_j / 59⌉ - 1`. -/
theorem processJobs_count_eq_pairs (cx : Cronexpr) (jobs : List JobsData)
    (grid : List RunSchema) (hvalid : ∀ j ∈ jobs, parses cx j = true)
    (hzero : ∀ r ∈ grid, r.runningJobs = 0)
    (hlen : (grid.length : Int) < 4611686018427387904)
    (hdur : ∀ j ∈ jobs, ∃ d : ℚ, j.timeElapsed = GoFloat64.finite d ∧ IsFloat64 d ∧
      ⌈d / 59⌉ < 281474976710656) :
    ∃ out, processJobs cx jobs grid = Run.done out ∧ out.length = grid.length ∧
      ∀ k : Nat, out[k]? = (grid[k]?).map (fun r : RunSchema =>
        { r with runningJobs := ((contributingPairs cx grid jobs k).card : Int) }) := by
  have hall : jobs.all (parses cx) = true := List.all_eq_true.mpr hvalid
  refine ⟨_, processJobs_done cx jobs grid hall, length_addCounts _ _, ?_⟩
  intro k
  rw [getElem?_addCounts, contribution_eq_card cx grid jobs k hlen hdur]
  cases hk : grid[k]? with
  | none => rfl
  | some r =>
    have hr : r.runningJobs = 0 := hzero r (List.getElem?_mem hk)
    simp [hr]

/-- C1 at the sample packages: two jobs on the grid of one day. -/
theorem processJobs_count_eq_pairs_witness :
    ∃ out, processJobs sampleCron sampleJobs (buildGrid 86400) = Run.done out ∧
      out.length = (buildGrid 86400).length ∧
      ∀ k : Nat, out[k]? = ((buildGrid 86400)[k]?).map (fun r : RunSchema =>
        { r with runningJobs :=
          ((contributingPairs sampleCron (buildGrid 86400) sampleJobs k).card : Int) }) :=
  processJobs_count_eq_pairs sampleCron sampleJobs (buildGrid 86400) (by decide)
    (buildGrid_runningJobs _) (by rw [buildGrid_day_length]; decide) sampleJobs_durations

/-! ## C7: the grid -/

/-- C7, counterexample. For a window of 106751991167301 days the product
`timeFrameDays * SEC_IN_DAY` leaves the range of `int` and wraps to a negative number
of seconds; `tsEnd` then lies before `tsStart`, the loop over the seconds never runs,
and the grid has no bucket at all instead of `1440 * 106751991167301`. -/
theorem buildGrid_days_overflow :
    timeFrameSecOf sampleStrconv
        ["cron_schedule_analyzer.bin", "my_cron_schedule", "106751991167301"] =
      some (-9223372036854745216) ∧
    wrap64 (106751991167301 * SEC_IN_DAY) = -9223372036854745216 ∧
    buildGrid (wrap64 (106751991167301 * SEC_IN_DAY)) = [] ∧
    (buildGrid (wrap64 (106751991167301 * SEC_IN_DAY))).length ≠
      1440 * (106751991167301 : Int).toNat := by
  refine ⟨by decide, by decide, by decide, by decide⟩

/-- C7, amended. For a window of `D ≥ 0` days that ends inside the range of `int`
(`946706400 + 86400 * D < 2 ^ 63`) the grid has `1440 * D` buckets; bucket `i` has
timestamp `946706400 + 60 * i` (as `ts` and as `tsTime`, with `tsTime1SecBack` one
second earlier) and running count 0. The window is `D * 86400` seconds when the
third argument parses to `D`, and 7 days (10080 buckets) when it is omitted. -/
theorem buildGrid_days (D : Int) (hD : 0 ≤ D)
    (hfit : tsStart + D * SEC_IN_DAY < 9223372036854775808) :
    (buildGrid (D * SEC_IN_DAY)).length = 1440 * D.toNat ∧
    (∀ i : Nat, i < 1440 * D.toNat →
      (buildGrid (D * SEC_IN_DAY))[i]? =
        some { runningJobs := 0, ts := 946706400 + 60 * (i : Int),
               tsTime := 946706400 + 60 * (i : Int),
               tsTime1SecBack := 946706400 + 60 * (i : Int) - 1 }) ∧
    (∀ (sc : Strconv) (prog file days : String), sc.Atoi days = some D →
      timeFrameSecOf sc [prog, file, days] = some (D * SEC_IN_DAY)) ∧
    (∀ (sc : Strconv) (prog file : String),
      timeFrameSecOf sc [prog, file] = some (7 * SEC_IN_DAY)) ∧
    (buildGrid (7 * SEC_IN_DAY)).length = 10080 := by
  have hsec : D * SEC_IN_DAY = 60 * ((1440 * D.toNat : Nat) : Int) := days_eq_minutes D hD
  have hm : tsStart + 60 * ((1440 * D.toNat : Nat) : Int) < 9223372036854775808 := by
    rw [← hsec]; exact hfit
  have h7 : (7 : Int) * SEC_IN_DAY = 60 * ((10080 : Nat) : Int) := by
    simp only [SEC_IN_DAY]
    norm_num
  refine ⟨?_, ?_, ?_, ?_, ?_⟩
  · rw [hsec, buildGrid_eq _ hm]
    simp
  · intro i hi
    rw [hsec, buildGrid_eq _ hm]
    simp [hi, mkRunSchema, tsStart]
  · intro sc prog file days hdays
    have hw : wrap64 (D * SEC_IN_DAY) = D * SEC_IN_DAY := by
      apply wrap64_eq_self
      · simp only [SEC_IN_DAY]; omega
      · simp only [SEC_IN_DAY, tsStart] at hfit ⊢; omega
    simp [timeFrameSecOf, hdays, hw]
  · intro sc prog file
    simp [timeFrameSecOf, TIME_FRAME_DAYS_DEFAULT]
  · rw [h7, buildGrid_eq _ (by decide)]
    simp

/-- C7 as amended, at a window of one day. -/
theorem buildGrid_days_witness :
    (buildGrid (1 * SEC_IN_DAY)).length = 1440 * (1 : Int).toNat ∧
    (∀ i : Nat, i < 1440 * (1 : Int).toNat →
      (buildGrid (1 * SEC_IN_DAY))[i]? =
        some { runningJobs := 0, ts := 946706400 + 60 * (i : Int),
               tsTime := 946706400 + 60 * (i : Int),
               tsTime1SecBack := 946706400 + 60 * (i : Int) - 1 }) ∧
    (∀ (sc : Strconv) (prog file days : String), sc.Atoi days = some 1 →
      timeFrameSecOf sc [prog, file, days] = some (1 * SEC_IN_DAY)) ∧
    (∀ (sc : Strconv) (prog file : String),
      timeFrameSecOf sc [prog, file] = some (7 * SEC_IN_DAY)) ∧
    (buildGrid (7 * SEC_IN_DAY)).length = 10080 :=
  buildGrid_days 1 (by decide) (by decide)

/-! ## C2, C3: the ranking -/

/-- C3. The ranked sequence is a permutation of the buckets of the grid and its running
counts never increase from one position to a later one. -/
theorem rank_perm_sorted (sp : SortPkg) (grid : List RunSchema) :
    (rank sp grid).Perm grid ∧
      (rank sp grid).Pairwise (fun a b => a.runningJobs ≥ b.runningJobs) :=
  ⟨rank_perm sp grid, rank_pairwise sp grid⟩

/-- C2. For a grid that is not empty and jobs whose expressions all parse, aggregation
ends normally and the first row of the ranking is a bucket of the aggregated grid whose
running count is the greatest of all the buckets' counts. -/
theorem rank_head_max (sp : SortPkg) (cx : Cronexpr) (jobs : List JobsData)
    (grid : List RunSchema) (hne : grid ≠ []) (hvalid : ∀ j ∈ jobs, parses cx j = true) :
    ∃ out first, processJobs cx jobs grid = Run.done out ∧
      (rank sp out).head? = some first ∧ first ∈ out ∧
      ∀ b ∈ out, b.runningJobs ≤ first.runningJobs := by
  have hall : jobs.all (parses cx) = true := List.all_eq_true.mpr hvalid
  have hperm :=
    rank_perm sp (addCounts (contribution cx grid jobs (List.range grid.length)) grid)
  have hsorted :=
    rank_pairwise sp (addCounts (contribution cx grid jobs (List.range grid.length)) grid)
  cases hr : rank sp (addCounts (contribution cx grid jobs (List.range grid.length)) grid) with
  | nil =>
    rw [hr] at hperm
    have h0 := hperm.length_eq
    rw [length_addCounts] at h0
    exact absurd (List.length_eq_zero.mp h0.symm) hne
  | cons first tail =>
    rw [hr] at hperm hsorted
    refine ⟨_, first, processJobs_done cx jobs grid hall, ?_,
      hperm.subset (List.mem_cons_self _ _), ?_⟩
    · rw [hr]; rfl
    · intro b hb
      rcases List.mem_cons.mp (hperm.symm.subset hb) with h | h
      · rw [h]
      · exact (List.pairwise_cons.mp hsorted).1 b h

/-- C2 at the sample packages: the two jobs of the usage text on the grid of one day. -/
theorem rank_head_max_witness :
    ∃ out first, processJobs sampleCron sampleJobs (buildGrid 86400) = Run.done out ∧
      (rank sampleSort out).head? = some first ∧ first ∈ out ∧
      ∀ b ∈ out, b.runningJobs ≤ first.runningJobs :=
  rank_head_max sampleSort sampleCron sampleJobs (buildGrid 86400) buildGrid_day_ne_nil
    (by decide)

/-! ## C5: the number of buckets one firing raises -/

theorem raisedCount_addCounts (c : Nat → Int) (l : List RunSchema) :
    raisedCount l (addCounts c l) =
      ((List.range l.length).filter (fun k => decide (0 < c k))).length := by
  induction l generalizing c with
  | nil => rfl
  | cons r rs ih =>
    simp only [addCounts, raisedCount, List.length_cons, List.range_succ_eq_map,
      List.filter_cons, ih, List.filter_map, List.length_map]
    by_cases h : 0 < c 0
    · simp [h, Nat.add_comm]
      rfl
    · simp [h]
      rfl

theorem length_filter_range_Ico (n a s : Nat) (h : a + s ≤ n) (p : Nat → Bool)
    (hp : ∀ k, k < n → (p k = true ↔ a ≤ k ∧ k < a + s)) :
    ((List.range n).filter p).length = s := by
  have h1 : (List.range n).filter p = List.range' a s := by
    apply List.eq_of_perm_of_sorted (r := (· ≤ ·))
    · rw [List.perm_ext_iff_of_nodup ((List.nodup_range n).filter _) (List.nodup_range' a s)]
      intro k
      simp only [List.mem_filter, List.mem_range, List.mem_range'_1]
      constructor
      · intro ⟨hk, hpk⟩; exact (hp k hk).mp hpk
      · intro hk; exact ⟨by omega, (hp k (by omega)).mpr hk⟩
    · exact ((List.pairwise_lt_range n).imp (fun h => Nat.le_of_lt h)).filter _
    · exact (List.pairwise_lt_range' a s).imp (fun h => Nat.le_of_lt h)
  rw [h1, List.length_range']

theorem fire_raises_aux (job : JobsData) (l : List RunSchema) (minute : Nat)
    (hlen : (l.length : Int) < 9223372036854775808)
    (hfit : (minute : Int) + max 1 (runMinutesRequired job) ≤ (l.length : Int)) :
    ∃ after, fire l.length minute job l = some after ∧
      (raisedCount l after : Int) = max 1 (runMinutesRequired job) := by
  have h1 : (1 : Int) ≤ max 1 (runMinutesRequired job) := le_max_left _ _
  have hm : minute < l.length := by omega
  have hS : max 1 (runMinutesRequired job) =
      (((max 1 (runMinutesRequired job)).toNat : Nat) : Int) := by omega
  refine ⟨_, fire_eq minute job l hm, ?_⟩
  rw [raisedCount_addCounts,
    length_filter_range_Ico l.length minute (max 1 (runMinutesRequired job)).toNat
      (by omega) _ ?_]
  · omega
  · intro k _
    have hc := covers_iff job _ hS minute k (by omega)
    by_cases hk : covers minute job k = true
    · simp only [hk, if_true, zero_lt_one, decide_True, true_iff]
      exact hc.mp hk
    · have hk2 : covers minute job k = false := by simpa using hk
      simp only [hk2, Bool.false_eq_true, if_false, lt_self_iff_false, decide_False,
        false_iff]
      intro h
      exact hk (hc.mpr h)

/-- The number `max 1 runMinutesRequired` is `max 1 ⌈d / 59⌉` for a duration `d` that
is a `float64` with `⌈d / 59⌉ < 2 ^ 48`. -/
theorem max_runMinutesRequired (job : JobsData) (d : ℚ)
    (hfin : job.timeElapsed = GoFloat64.finite d) (hfl : IsFloat64 d)
    (hc : ⌈d / 59⌉ < 281474976710656) :
    max 1 (runMinutesRequired job) = max 1 ⌈d / 59⌉ := by
  rcases runMinutesRequired_spec job d hfin hfl hc with ⟨h1, _⟩ | ⟨h1, h2⟩
  · rw [h1]
  · rcases le_total 1 ⌈d / 59⌉ with h | h
    · rw [max_eq_left (by omega), max_eq_right h]; omega
    · rw [max_eq_left (by omega), max_eq_left h]

/-- C5. For every job whose duration is a `float64` number `d` (non-negative in
particular), every grid (a slice of `RunSchema` values: on amd64 the heap has `2 ^ 48`
bytes, so the grid has fewer than `2 ^ 48` buckets) and every firing whose span
`max 1 ⌈d / 59⌉` is not clipped by the end of the grid, the firing raises exactly
`max 1 ⌈d / 59⌉` buckets, which is at least 1 and is `⌈d / 59⌉` when `0 < d`: that is 1
for `d = 0` and for `0 < d ≤ 59`, 2 for `d = 68.5`, 1 for `d = 34.2` (the `float64`
nearest to it) and 62 for `d = 3600`. -/
theorem fire_raisedCount (job : JobsData) (d : ℚ)
    (hfin : job.timeElapsed = GoFloat64.finite d) (hfl : IsFloat64 d)
    (l : List RunSchema) (minute : Nat)
    (hlen : (l.length : Int) < 281474976710656)
    (hfit : (minute : Int) + max 1 ⌈d / 59⌉ ≤ (l.length : Int)) :
    ∃ after, fire l.length minute job l = some after ∧
      (raisedCount l after : Int) = max 1 ⌈d / 59⌉ ∧
      1 ≤ raisedCount l after ∧
      (0 < d → (raisedCount l after : Int) = ⌈d / 59⌉) ∧
      (d = 0 → raisedCount l after = 1) ∧
      (0 < d → d ≤ 59 → raisedCount l after = 1) ∧
      (d = 137 / 2 → raisedCount l after = 2) ∧
      (d = float34_2 → raisedCount l after = 1) ∧
      (d = 3600 → raisedCount l after = 62) := by
  obtain ⟨hv1, hv0, hv2, hv3, hv4⟩ := ceil_div_59_values
  have h1 : (1 : Int) ≤ max 1 ⌈d / 59⌉ := le_max_left _ _
  have hmax := max_runMinutesRequired job d hfin hfl
    (by have := le_max_right 1 ⌈d / 59⌉; omega)
  obtain ⟨after, h2, h3⟩ := fire_raises_aux job l minute (by omega)
    (by rw [hmax]; exact hfit)
  rw [hmax] at h3
  refine ⟨after, h2, h3, by omega, ?_, ?_, ?_, ?_, ?_, ?_⟩
  · intro h0
    have hpos : 0 < d / 59 := by positivity
    have hc : 0 < ⌈d / 59⌉ := Int.ceil_pos.mpr hpos
    rw [h3, max_eq_right (by omega)]
  · intro h0
    rw [h0, hv0] at h3
    have : (raisedCount l after : Int) = 1 := by rw [h3]; decide
    exact_mod_cast this
  · intro h0 h59
    rw [hv1 d h0 h59] at h3
    have : (raisedCount l after : Int) = 1 := by rw [h3]; decide
    exact_mod_cast this
  · intro h
    rw [h, hv2] at h3
    have : (raisedCount l after : Int) = 2 := by rw [h3]; decide
    exact_mod_cast this
  · intro h
    rw [h, hv3] at h3
    have : (raisedCount l after : Int) = 1 := by rw [h3]; decide
    exact_mod_cast this
  · intro h
    rw [h, hv4] at h3
    have : (raisedCount l after : Int) = 62 := by rw [h3]; decide
    exact_mod_cast this

/-- C5 at the job of 68.5 seconds firing at the first bucket of one day. -/
theorem fire_raisedCount_witness :
    ∃ after, fire (buildGrid 86400).length 0
        { schedule := "0 * * * *", timeElapsed := GoFloat64.finite (137 / 2) }
        (buildGrid 86400) = some after ∧
      (raisedCount (buildGrid 86400) after : Int) = max 1 ⌈(137 / 2 : ℚ) / 59⌉ ∧
      1 ≤ raisedCount (buildGrid 86400) after ∧
      ((0 : ℚ) < 137 / 2 → (raisedCount (buildGrid 86400) after : Int) = ⌈(137 / 2 : ℚ) / 59⌉) ∧
      ((137 / 2 : ℚ) = 0 → raisedCount (buildGrid 86400) after = 1) ∧
      ((0 : ℚ) < 137 / 2 → (137 / 2 : ℚ) ≤ 59 → raisedCount (buildGrid 86400) after = 1) ∧
      ((137 / 2 : ℚ) = 137 / 2 → raisedCount (buildGrid 86400) after = 2) ∧
      ((137 / 2 : ℚ) = float34_2 → raisedCount (buildGrid 86400) after = 1) ∧
      ((137 / 2 : ℚ) = 3600 → raisedCount (buildGrid 86400) after = 62) :=
  fire_raisedCount
    { schedule := "0 * * * *", timeElapsed := GoFloat64.finite (137 / 2) } (137 / 2) rfl
    isFloat64_values.2.1 (buildGrid 86400) 0
    (by rw [buildGrid_day_length]; decide)
    (by rw [buildGrid_day_length, ceil_div_59_values.2.2.1]; decide)

/-! ## C6: writes stay inside the grid -/

theorem fire_last (job : JobsData) (grid : List RunSchema) (hne : grid ≠ []) :
    fire grid.length (grid.length - 1) job grid = incrAt grid (grid.length - 1) := by
  have hpos : 0 < grid.length := List.length_pos.mpr hne
  have hm : grid.length - 1 < grid.length := by omega
  rw [fire_eq _ job grid hm, incrAt_eq grid _ hm]
  refine congrArg _ (addCounts_congr _ _ _ ?_)
  intro k hk
  by_cases h : k = grid.length - 1
  · have hc : covers (grid.length - 1) job k = true := by
      simp only [covers, decide_eq_true_eq]
      omega
    rw [if_pos hc, if_pos h]
  · have hc : ¬ covers (grid.length - 1) job k = true := by
      simp only [covers, decide_eq_true_eq]
      omega
    rw [if_neg hc, if_neg h]

/-- C6. Aggregation never writes outside the grid (it never ends in the panic of an
index out of range), the grid it leaves has the number of buckets it started with,
every firing at a bucket of the grid succeeds and keeps that number, and a firing at
the last bucket is the single statement that raises that bucket by one, whatever the
duration of the job. -/
theorem processJobs_in_bounds (cx : Cronexpr) (jobs : List JobsData)
    (grid : List RunSchema) :
    processJobs cx jobs grid ≠ Run.panic ∧
    (∀ out, processJobs cx jobs grid = Run.done out ∨
        processJobs cx jobs grid = Run.exit1 out → out.length = grid.length) ∧
    (∀ (job : JobsData) (minute : Nat), minute < grid.length →
      ∃ after, fire grid.length minute job grid = some after ∧
        after.length = grid.length) ∧
    (∀ job : JobsData, grid ≠ [] →
      ∃ after, fire grid.length (grid.length - 1) job grid = some after ∧
        incrAt grid (grid.length - 1) = some after ∧
        ∀ k : Nat, after[k]? = (grid[k]?).map (fun r : RunSchema =>
          if k = grid.length - 1 then { r with runningJobs := r.runningJobs + 1 }
          else r)) := by
  obtain ⟨out, hout, hlen⟩ := processJobs_length cx jobs grid
  refine ⟨?_, ?_, ?_, ?_⟩
  · rcases hout with h | h <;> rw [h] <;> simp
  · intro out1 h1
    rcases hout with h | h <;> rcases h1 with h2 | h2 <;> rw [h] at h2 <;> cases h2 <;>
      exact hlen
  · intro job minute hm
    exact ⟨_, fire_eq minute job grid hm, length_addCounts _ _⟩
  · intro job hne
    have hpos : 0 < grid.length := List.length_pos.mpr hne
    have hm : grid.length - 1 < grid.length := by omega
    refine ⟨_, (fire_last job grid hne).trans (incrAt_eq grid _ hm), incrAt_eq grid _ hm, ?_⟩
    intro k
    rw [getElem?_addCounts]
    cases grid[k]? with
    | none => rfl
    | some r =>
      by_cases h : k = grid.length - 1
      · simp [h]
      · simp [h]


/-! ## C8: a malformed expression and the fatal exit -/

/-- C8, counterexample. With a window of 0 days the grid is empty, no expression is
ever parsed, and the run of a file whose only job has a malformed expression ends in
the report of an empty ranking. -/
theorem mainRun_zero_days :
    loadJobs sampleStrconv (trimSpace "every minute\t0".toList) =
        Run.done [{ schedule := "every minute", timeElapsed := GoFloat64.finite 0 }] ∧
      parses sampleCron
        { schedule := "every minute", timeElapsed := GoFloat64.finite 0 } = false ∧
      mainRun sampleStrconv sampleCron sampleSort
        ["cron_schedule_analyzer.bin", "my_cron_schedule", "0"]
        (some "every minute\t0") = Outcome.report [] := by
  refine ⟨by decide, by decide, by decide⟩

theorem buildGrid_ne_nil_of_days (D : Int) (hD : 1 ≤ D)
    (hfit : tsStart + D * SEC_IN_DAY < 9223372036854775808) :
    ∃ g rest, buildGrid (D * SEC_IN_DAY) = g :: rest := by
  have hlen : (buildGrid (D * SEC_IN_DAY)).length = 1440 * D.toNat := by
    rw [buildGrid_length, gridLength_days D (by omega) hfit]
  cases h : buildGrid (D * SEC_IN_DAY) with
  | nil =>
    rw [h] at hlen
    simp only [List.length_nil] at hlen
    omega
  | cons g rest => exact ⟨g, rest, rfl⟩

theorem all_parses_false (cx : Cronexpr) (jobs : List JobsData)
    (hbad : ∃ j ∈ jobs, parses cx j = false) : jobs.all (parses cx) = false := by
  obtain ⟨j, hj, hp⟩ := hbad
  cases h : jobs.all (parses cx) with
  | false => rfl
  | true =>
    have := List.all_eq_true.mp h j hj
    rw [hp] at this
    cases this

/-- C8, as amended. For every job list that holds a job whose expression does not
parse and every window of `D ≥ 1` days that ends inside the range of `int`
(`946706400 + 86400 * D < 2 ^ 63`, so that the grid is not empty), aggregation exits
within the first bucket and the run ends in the fatal-error outcome, without a ranked
report. -/
theorem mainRun_fatal_of_malformed (sc : Strconv) (cx : Cronexpr) (sp : SortPkg)
    (args : List String) (content : String) (D : Int) (jobs : List JobsData)
    (hargs : args.length = 2 ∨ args.length = 3)
    (ht : timeFrameSecOf sc args = some (D * SEC_IN_DAY)) (hD : 1 ≤ D)
    (hfit : tsStart + D * SEC_IN_DAY < 9223372036854775808)
    (hload : loadJobs sc (trimSpace content.toList) = Run.done jobs)
    (hbad : ∃ j ∈ jobs, parses cx j = false) :
    (∃ st, processJobs cx jobs (buildGrid (D * SEC_IN_DAY)) = Run.exit1 st) ∧
      mainRun sc cx sp args (some content) = Outcome.fatal := by
  obtain ⟨g, rest, hg⟩ := buildGrid_ne_nil_of_days D hD hfit
  have hexit := processJobs_exit cx jobs g rest (all_parses_false cx jobs hbad)
  rw [← hg] at hexit
  refine ⟨⟨_, hexit⟩, ?_⟩
  unfold mainRun
  have h1 : ¬ (args.length < 2 ∨ args.length > 3) := by omega
  rw [if_neg h1, ht]
  simp only
  by_cases hc : trimSpace content.toList = []
  · rw [if_pos hc]
  · rw [if_neg hc, hload]
    simp only
    rw [hexit]

/-- C8 as amended, at the sample packages and a window of one day. -/
theorem mainRun_fatal_of_malformed_witness :
    (∃ st, processJobs sampleCron malformedJobs (buildGrid (1 * SEC_IN_DAY)) =
        Run.exit1 st) ∧
      mainRun sampleStrconv sampleCron sampleSort
        ["cron_schedule_analyzer.bin", "my_cron_schedule", "1"]
        (some "* * * * *\t0\nevery minute\t0") = Outcome.fatal :=
  mainRun_fatal_of_malformed sampleStrconv sampleCron sampleSort
    ["cron_schedule_analyzer.bin", "my_cron_schedule", "1"]
    "* * * * *\t0\nevery minute\t0" 1 malformedJobs (by decide) (by decide) (by decide)
    (by decide) (by decide) (by decide)

/-! ## C9: the state at the exit -/

theorem jobsContribution_eq_length (cx : Cronexpr) (g : RunSchema) (minute : Nat)
    (jobs : List JobsData) (k : Nat) :
    jobsContribution cx g minute jobs k =
      ((jobs.filter (fun j => fires cx j g && covers minute j k)).length : Int) := by
  induction jobs with
  | nil => rfl
  | cons j js ih =>
    rw [jobsContribution_cons, ih, List.filter_cons]
    by_cases h : (fires cx j g && covers minute j k) = true
    · rw [if_pos h, if_pos h, List.length_cons]
      push_cast
      ring
    · rw [if_neg h, if_neg h, zero_add]

/-- C9, counterexample. The every-minute job stands before a job whose expression does
not parse: the run over the grid of one day exits while the first bucket already has
running count 1. -/
theorem processJobs_exit_after_increment :
    parses sampleCron
      { schedule := "every minute", timeElapsed := GoFloat64.finite 0 } = false ∧
    ∃ st first, processJobs sampleCron malformedJobs (buildGrid 86400) = Run.exit1 st ∧
      st.head? = some first ∧ first.runningJobs = 1 := by
  have hr : List.range 1440 = 0 :: List.range' 1 1439 := by
    rw [List.range_eq_range']
    rfl
  have hgrid : buildGrid 86400 =
      mkRunSchema tsStart ::
        (List.range' 1 1439).map (fun i : Nat => mkRunSchema (tsStart + 60 * (i : Int))) := by
    rw [buildGrid_day_eq, hr]
    rfl
  refine ⟨by decide, ?_⟩
  rw [hgrid, processJobs_exit sampleCron malformedJobs _ _ (by decide)]
  refine ⟨_, _, rfl, rfl, ?_⟩
  have hc : jobsContribution sampleCron (mkRunSchema tsStart) 0
      (List.takeWhile (parses sampleCron) malformedJobs) 0 = 1 := by
    have ht : List.takeWhile (parses sampleCron) malformedJobs =
        [{ schedule := "* * * * *", timeElapsed := GoFloat64.finite 0 }] := by decide
    have hf : fires sampleCron
        { schedule := "* * * * *", timeElapsed := GoFloat64.finite 0 }
        (mkRunSchema tsStart) = true := by decide
    rw [ht, jobsContribution_cons, hf,
      covers_of_short _ (by rw [(runMinutesRequired_values _).1]; decide),
      jobsContribution_nil]
    rfl
  show (mkRunSchema tsStart).runningJobs + jobsContribution sampleCron (mkRunSchema tsStart) 0
      (List.takeWhile (parses sampleCron) malformedJobs) 0 = 1
  rw [hc]
  rfl

/-- C9, as amended. When the run exits because an expression does not parse, it does
so during the pass over the first bucket: the jobs that precede the first such
expression have been applied at the first bucket and nothing else has been counted.
Bucket `k` then holds the number of those jobs that fire at the first bucket and
raise `k` from there (`covers 0 j k`: `k` is 0, or `0 < k < maxNextMinute`); the grid
is still all zero when none of them fires at the first bucket. -/
theorem processJobs_exit_state (cx : Cronexpr) (jobs : List JobsData) (g : RunSchema)
    (rest : List RunSchema) (hzero : ∀ r ∈ g :: rest, r.runningJobs = 0)
    (hbad : ∃ j ∈ jobs, parses cx j = false) :
    ∃ st, processJobs cx jobs (g :: rest) = Run.exit1 st ∧
      (∀ k : Nat, st[k]? = ((g :: rest)[k]?).map (fun r : RunSchema =>
        { r with runningJobs :=
          (((jobs.takeWhile (parses cx)).filter
            (fun j => fires cx j g && covers 0 j k)).length : Int) })) ∧
      ((∀ j ∈ jobs.takeWhile (parses cx), fires cx j g = false) → st = g :: rest) := by
  refine ⟨_, processJobs_exit cx jobs g rest (all_parses_false cx jobs hbad), ?_, ?_⟩
  · intro k
    rw [getElem?_addCounts, jobsContribution_eq_length]
    cases hk : (g :: rest)[k]? with
    | none => rfl
    | some r =>
      have hr : r.runningJobs = 0 := hzero r (List.getElem?_mem hk)
      simp [hr]
  · intro hnone
    have h0 : ∀ k, k < (g :: rest).length →
        jobsContribution cx g 0 (jobs.takeWhile (parses cx)) k = (fun _ => 0) k := by
      intro k _
      rw [jobsContribution_eq_length]
      have : (jobs.takeWhile (parses cx)).filter (fun j => fires cx j g && covers 0 j k) = [] := by
        rw [List.filter_eq_nil_iff]
        intro j hj
        simp [hnone j hj]
      rw [this]
      rfl
    rw [addCounts_congr _ _ _ h0, addCounts_zero]

/-- C9 as amended, at the sample packages: the every-minute job stands before the
malformed expression, on a grid of two buckets. -/
theorem processJobs_exit_state_witness :
    ∃ st, processJobs sampleCron malformedJobs
        (mkRunSchema 946706400 :: [mkRunSchema 946706460]) = Run.exit1 st ∧
      (∀ k : Nat, st[k]? = ((mkRunSchema 946706400 :: [mkRunSchema 946706460])[k]?).map
        (fun r : RunSchema =>
        { r with runningJobs :=
          (((malformedJobs.takeWhile (parses sampleCron)).filter
            (fun j => fires sampleCron j (mkRunSchema 946706400) && covers 0 j k)).length :
              Int) })) ∧
      ((∀ j ∈ malformedJobs.takeWhile (parses sampleCron),
          fires sampleCron j (mkRunSchema 946706400) = false) →
        st = mkRunSchema 946706400 :: [mkRunSchema 946706460]) :=
  processJobs_exit_state sampleCron malformedJobs _ _ (by decide) (by decide)

/-! ## C10: a line without a tab -/

theorem split_of_not_mem (sep : Char) (s : List Char) (h : sep ∉ s) : split sep s = [s] := by
  induction s with
  | nil => rfl
  | cons c cs ih =>
    have hc : ¬ c = sep := fun e => h (by rw [e]; exact List.mem_cons_self _ _)
    have hcs : sep ∉ cs := fun e => h (List.mem_cons_of_mem _ e)
    simp only [split, if_neg hc, ih hcs]

/-- A line that is not blank and has no tab makes the loop over the lines panic when it
reads `cols[1]`. -/
theorem linesLoop_missing_tab (sc : Strconv) (line : List Char) (rest : List (List Char))
    (jobsDataList : List JobsData) (hne : trimSpace line ≠ [])
    (htab : Char.ofNat 9 ∉ trimSpace line) :
    linesLoop sc (line :: rest) jobsDataList = Run.panic := by
  simp only [linesLoop, if_neg hne, split_of_not_mem _ _ htab]
  rfl

/-- C10, the code at the failing input. A file whose only line is `0 * * * *`, without
a tab and a duration, makes the loader panic on `cols[1]` (index out of range), and so
the whole run, whatever the packages do; a duration that does not parse ends in the
handled exit instead. -/
theorem loadJobs_missing_tab (sc : Strconv) (cx : Cronexpr) (sp : SortPkg) :
    loadJobs sc (trimSpace "0 * * * *".toList) = Run.panic ∧
    mainRun sc cx sp ["cron_schedule_analyzer.bin", "my_cron_schedule"]
      (some "0 * * * *") = Outcome.panic ∧
    loadJobs sampleStrconv (trimSpace "0 * * * *\tsoon".toList) = Run.exit1 [] ∧
    mainRun sampleStrconv cx sp ["cron_schedule_analyzer.bin", "my_cron_schedule"]
      (some "0 * * * *\tsoon") = Outcome.fatal :=
  ⟨rfl, rfl, rfl, rfl⟩

/-! ## C11: the two jobs of the usage text on one day -/

theorem usage_contribution (cx : Cronexpr)
    (h0 : ∀ i, i < 1440 → firesAt cx (buildGrid 86400)
      { schedule := "0 * * * *", timeElapsed := GoFloat64.finite (137 / 2) } i = decide (i % 60 = 0))
    (h5 : ∀ i, i < 1440 → firesAt cx (buildGrid 86400)
      { schedule := "5 * * * *", timeElapsed := GoFloat64.finite float34_2 } i = decide (i % 60 = 5))
    (k : Nat) (hk : k < 1440) :
    contribution cx (buildGrid 86400) sampleJobs (List.range 1440) k =
      if k % 60 = 0 ∨ k % 60 = 1 ∨ k % 60 = 5 then 1 else 0 := by
  have hS0 : max 1 (runMinutesRequired
      { schedule := "0 * * * *", timeElapsed := GoFloat64.finite (137 / 2) }) =
      ((2 : Nat) : Int) := by
    rw [(runMinutesRequired_values _).2.1]; rfl
  have hS5 : max 1 (runMinutesRequired
      { schedule := "5 * * * *", timeElapsed := GoFloat64.finite float34_2 }) =
      ((1 : Nat) : Int) := by
    rw [(runMinutesRequired_values _).2.2.1]; rfl
  unfold sampleJobs
  rw [contribution_cons, contribution_cons, contribution_nil, add_zero,
    contribution_single_of cx _ _ 1440 k 2 (fun m => m % 60 = 0) h0 hS0 (by decide),
    contribution_single_of cx _ _ 1440 k 1 (fun m => m % 60 = 5) h5 hS5 (by decide),
    card_hourly_two 1440 k hk, card_five_one 1440 k hk]
  split_ifs <;> first | rfl | omega

/-- C11. When the expression `0 * * * *` fires exactly at the buckets `i` of the day
with `i % 60 = 0` and `5 * * * *` exactly at those with `i % 60 = 5`, the jobs of 68.5
and 34.2 seconds occupy 2 and 1 buckets, the run over the 1440 buckets of one day ends
normally, bucket `i` has count 1 when `i % 60` is 0, 1 or 5 and count 0 otherwise, and
the greatest count of the day is 1. -/
theorem usage_one_day (cx : Cronexpr)
    (h0 : ∀ i, i < 1440 → firesAt cx (buildGrid 86400)
      { schedule := "0 * * * *", timeElapsed := GoFloat64.finite (137 / 2) } i = decide (i % 60 = 0))
    (h5 : ∀ i, i < 1440 → firesAt cx (buildGrid 86400)
      { schedule := "5 * * * *", timeElapsed := GoFloat64.finite float34_2 } i = decide (i % 60 = 5)) :
    (buildGrid 86400).length = 1440 ∧
    max 1 (runMinutesRequired { schedule := "0 * * * *", timeElapsed := GoFloat64.finite (137 / 2) }) = 2 ∧
    max 1 (runMinutesRequired { schedule := "5 * * * *", timeElapsed := GoFloat64.finite float34_2 }) = 1 ∧
    ∃ out, processJobs cx sampleJobs (buildGrid 86400) = Run.done out ∧
      (∀ i, i < 1440 → (out[i]?).map RunSchema.runningJobs =
        some (if i % 60 = 0 ∨ i % 60 = 1 ∨ i % 60 = 5 then 1 else 0)) ∧
      (∀ r ∈ out, r.runningJobs ≤ 1) ∧ (∃ r ∈ out, r.runningJobs = 1) := by
  have hp0 := parses_of_firesAt cx _ _ 0 ((h0 0 (by decide)).trans (by decide))
  have hp5 := parses_of_firesAt cx _ _ 5 ((h5 5 (by decide)).trans (by decide))
  have hall : sampleJobs.all (parses cx) = true := by
    simp only [sampleJobs, List.all_cons, List.all_nil, hp0, hp5, Bool.and_self]
  have hcount : ∀ i, i < 1440 →
      ((addCounts (contribution cx (buildGrid 86400) sampleJobs
        (List.range (buildGrid 86400).length)) (buildGrid 86400))[i]?).map
          RunSchema.runningJobs =
        some (if i % 60 = 0 ∨ i % 60 = 1 ∨ i % 60 = 5 then 1 else 0) := by
    intro i hi
    rw [getElem?_addCounts, buildGrid_day_length, usage_contribution cx h0 h5 i hi,
      buildGrid_day_eq]
    simp [List.getElem?_range hi, mkRunSchema]
  refine ⟨buildGrid_day_length, ?_, ?_, _, processJobs_done cx sampleJobs _ hall, hcount,
    ?_, ?_⟩
  · rw [(runMinutesRequired_values _).2.1]; rfl
  · rw [(runMinutesRequired_values _).2.2.1]; rfl
  · intro r hr
    obtain ⟨i, hi⟩ := List.mem_iff_getElem?.mp hr
    have hi1 : i < 1440 := by
      rcases Nat.lt_or_ge i 1440 with h | h
      · exact h
      · rw [List.getElem?_eq_none (by rw [length_addCounts, buildGrid_day_length]; exact h)]
          at hi
        cases hi
    have := hcount i hi1
    rw [hi] at this
    simp only [Option.map_some', Option.some.injEq] at this
    rw [this]
    split_ifs <;> decide
  · have := hcount 0 (by decide)
    cases h : (addCounts (contribution cx (buildGrid 86400) sampleJobs
        (List.range (buildGrid 86400).length)) (buildGrid 86400))[0]? with
    | none => rw [h] at this; cases this
    | some r =>
      rw [h] at this
      simp only [Option.map_some', Option.some.injEq] at this
      exact ⟨r, List.getElem?_mem h, by rw [this]; rfl⟩

/-- C11 at the sample `cronexpr`. -/
theorem usage_one_day_witness :
    (buildGrid 86400).length = 1440 ∧
    max 1 (runMinutesRequired { schedule := "0 * * * *", timeElapsed := GoFloat64.finite (137 / 2) }) = 2 ∧
    max 1 (runMinutesRequired { schedule := "5 * * * *", timeElapsed := GoFloat64.finite float34_2 }) = 1 ∧
    ∃ out, processJobs sampleCron sampleJobs (buildGrid 86400) = Run.done out ∧
      (∀ i, i < 1440 → (out[i]?).map RunSchema.runningJobs =
        some (if i % 60 = 0 ∨ i % 60 = 1 ∨ i % 60 = 5 then 1 else 0)) ∧
      (∀ r ∈ out, r.runningJobs ≤ 1) ∧ (∃ r ∈ out, r.runningJobs = 1) :=
  usage_one_day sampleCron
    (fun i hi => hourly_firesAt_day i hi _)
    (fun i hi => fiveMinute_firesAt_day i hi _)

/-! ## C12: one firing of the job of 3600 seconds -/

/-- C12. A job of 3600 seconds has `⌈3600 / 59⌉ = 62`, and a firing of it at a bucket
`i` with `i + 61 ≤ n - 1` (`n` the number of buckets of the grid, a slice length and so
below `2 ^ 63`) adds one to each of the 62 buckets `i, …, i + 61` and leaves every
other bucket as it was. -/
theorem fire_hour_job (job : JobsData) (l : List RunSchema) (i : Nat)
    (hd : job.timeElapsed = GoFloat64.finite 3600)
    (hlen : (l.length : Int) < 9223372036854775808)
    (hfit : (i : Int) + 61 ≤ (l.length : Int) - 1) :
    runMinutesRequired job = 62 ∧ ⌈(3600 : ℚ) / 59⌉ = 62 ∧
    ∃ after, fire l.length i job l = some after ∧ after.length = l.length ∧
      (∀ k : Nat, after[k]? = (l[k]?).map (fun r : RunSchema =>
        if i ≤ k ∧ k ≤ i + 61 then { r with runningJobs := r.runningJobs + 1 } else r)) ∧
      raisedCount l after = 62 := by
  have hr : runMinutesRequired job = 62 := by
    obtain ⟨s, x⟩ := job
    simp only at hd
    subst hd
    exact (runMinutesRequired_values s).2.2.2
  have hS : max 1 (runMinutesRequired job) = ((62 : Nat) : Int) := by
    rw [hr]; rfl
  have hi : i < l.length := by omega
  obtain ⟨after, h1, h2⟩ := fire_raises_aux job l i hlen (by rw [hr]; simp; omega)
  have h3 : after = addCounts (fun k => if covers i job k then 1 else 0) l :=
    Option.some.inj (h1.symm.trans (fire_eq i job l hi))
  refine ⟨hr, ceil_div_59_values.2.2.2.2, after, h1, ?_, ?_, ?_⟩
  · rw [h3, length_addCounts]
  · intro k
    rw [h3, getElem?_addCounts]
    cases l[k]? with
    | none => rfl
    | some r =>
      by_cases hk : i ≤ k ∧ k ≤ i + 61
      · have hc : covers i job k = true :=
          (covers_iff job 62 hS i k (by omega)).mpr (by omega)
        simp [hk, hc]
      · have hc : ¬ covers i job k = true := fun h =>
          hk (by have := (covers_iff job 62 hS i k (by omega)).mp h; omega)
        simp [hk, hc]
  · rw [hr] at h2
    have : (raisedCount l after : Int) = 62 := by rw [h2]; rfl
    exact_mod_cast this

/-- C12 at the first bucket of the grid of one day. -/
theorem fire_hour_job_witness :
    runMinutesRequired { schedule := "0 * * * *", timeElapsed := GoFloat64.finite 3600 } =
      62 ∧ ⌈(3600 : ℚ) / 59⌉ = 62 ∧
    ∃ after, fire (buildGrid 86400).length 0
        { schedule := "0 * * * *", timeElapsed := GoFloat64.finite 3600 }
        (buildGrid 86400) = some after ∧
      after.length = (buildGrid 86400).length ∧
      (∀ k : Nat, after[k]? = ((buildGrid 86400)[k]?).map (fun r : RunSchema =>
        if 0 ≤ k ∧ k ≤ 0 + 61 then { r with runningJobs := r.runningJobs + 1 } else r)) ∧
      raisedCount (buildGrid 86400) after = 62 :=
  fire_hour_job { schedule := "0 * * * *", timeElapsed := GoFloat64.finite 3600 }
    (buildGrid 86400) 0 rfl
    (by rw [buildGrid_day_length]; decide)
    (by rw [buildGrid_day_length]; decide)

/-! ## C13: a job that fires at every bucket -/

/-- C13. A job whose expression parses, which fires at every bucket of the grid and
whose duration `d` has `d ≤ 59` (so every `d` with `0 ≤ d ≤ 59`: its occupancy is one
bucket), adds exactly one to every bucket: among other
jobs with valid expressions the count of each bucket is the count without it plus 1,
and alone on a grid of zero counts it leaves 1 in every bucket. -/
theorem everywhere_job_adds_one (cx : Cronexpr) (grid : List RunSchema)
    (A B : List JobsData) (job : JobsData) (d : ℚ)
    (hA : ∀ j ∈ A, parses cx j = true) (hB : ∀ j ∈ B, parses cx j = true)
    (hparse : parses cx job = true)
    (hf : ∀ i, i < grid.length → firesAt cx grid job i = true)
    (hfin : job.timeElapsed = GoFloat64.finite d) (hd : d ≤ 59) :
    ∃ outWithout outWith alone,
      processJobs cx (A ++ B) grid = Run.done outWithout ∧
      processJobs cx (A ++ job :: B) grid = Run.done outWith ∧
      processJobs cx [job] grid = Run.done alone ∧
      (∀ k : Nat, outWith[k]? = (outWithout[k]?).map (fun r : RunSchema =>
        { r with runningJobs := r.runningJobs + 1 })) ∧
      ((∀ r ∈ grid, r.runningJobs = 0) → ∀ r ∈ alone, r.runningJobs = 1) := by
  have hceil := runMinutesRequired_le_one job d hfin hd
  have hallAB : (A ++ B).all (parses cx) = true := by
    rw [List.all_append, List.all_eq_true.mpr hA, List.all_eq_true.mpr hB]; rfl
  have hallAjB : (A ++ job :: B).all (parses cx) = true := by
    rw [List.all_append, List.all_cons, List.all_eq_true.mpr hA, List.all_eq_true.mpr hB,
      hparse]; rfl
  have hallJ : [job].all (parses cx) = true := by simp [hparse]
  refine ⟨_, _, _, processJobs_done cx _ grid hallAB, processJobs_done cx _ grid hallAjB,
    processJobs_done cx _ grid hallJ, ?_, ?_⟩
  · intro k
    have hc : addCounts (contribution cx grid (A ++ job :: B) (List.range grid.length)) grid =
        addCounts (fun k => contribution cx grid (A ++ B) (List.range grid.length) k + 1)
          grid := by
      apply addCounts_congr
      intro k hk
      rw [contribution_append, contribution_cons, contribution_append,
        contribution_everywhere cx grid job hf hceil k hk]
      ring
    rw [hc, getElem?_addCounts, getElem?_addCounts]
    cases grid[k]? with
    | none => rfl
    | some r => simp [add_assoc]
  · intro hzero r hr
    obtain ⟨k, hk⟩ := List.mem_iff_getElem?.mp hr
    rw [getElem?_addCounts] at hk
    cases hg : grid[k]? with
    | none => rw [hg] at hk; cases hk
    | some g =>
      rw [hg] at hk
      simp only [Option.map_some', Option.some.injEq] at hk
      have hklt : k < grid.length := by
        rcases Nat.lt_or_ge k grid.length with h | h
        · exact h
        · rw [List.getElem?_eq_none h] at hg; cases hg
      rw [← hk, contribution_everywhere cx grid job hf hceil k hklt,
        hzero g (List.getElem?_mem hg)]
      rfl

/-- C13 at the sample packages: the every-minute job among the two jobs of the usage
text, on the grid of one day. -/
theorem everywhere_job_adds_one_witness :
    ∃ outWithout outWith alone,
      processJobs sampleCron (sampleJobs ++ []) (buildGrid 86400) = Run.done outWithout ∧
      processJobs sampleCron
        (sampleJobs ++ { schedule := "* * * * *", timeElapsed := GoFloat64.finite 0 } :: [])
        (buildGrid 86400) = Run.done outWith ∧
      processJobs sampleCron [{ schedule := "* * * * *", timeElapsed := GoFloat64.finite 0 }]
        (buildGrid 86400) = Run.done alone ∧
      (∀ k : Nat, outWith[k]? = (outWithout[k]?).map (fun r : RunSchema =>
        { r with runningJobs := r.runningJobs + 1 })) ∧
      ((∀ r ∈ buildGrid 86400, r.runningJobs = 0) → ∀ r ∈ alone, r.runningJobs = 1) :=
  everywhere_job_adds_one sampleCron (buildGrid 86400) sampleJobs []
    { schedule := "* * * * *", timeElapsed := GoFloat64.finite 0 } 0
    (by decide) (by simp) (by decide)
    (fun i hi => by
      rw [buildGrid_day_length] at hi
      exact everyMinute_firesAt_day i hi _)
    rfl (by norm_num)

/-! ## C14: counts never decrease -/

theorem CountsLe.refl (l : List RunSchema) : CountsLe l l := by
  refine ⟨rfl, ?_⟩
  intro k b a hb ha
  rw [hb] at ha
  cases ha
  exact le_refl _

theorem CountsLe.trans {l1 l2 l3 : List RunSchema} (h12 : CountsLe l1 l2)
    (h23 : CountsLe l2 l3) : CountsLe l1 l3 := by
  refine ⟨h12.1.trans h23.1, ?_⟩
  intro k b a hb ha
  have hk : k < l2.length := by
    rw [← h12.1]
    rcases Nat.lt_or_ge k l1.length with h | h
    · exact h
    · rw [List.getElem?_eq_none h] at hb; cases hb
  have hm : l2[k]? = some l2[k] := List.getElem?_eq_getElem hk
  exact le_trans (h12.2 k b _ hb hm) (h23.2 k _ a hm ha)

theorem incrAt_countsLe (l : List RunSchema) (i : Nat) (l1 : List RunSchema)
    (h : incrAt l i = some l1) : CountsLe l l1 := by
  have hi : i < l.length := by
    rcases Nat.lt_or_ge i l.length with h1 | h1
    · exact h1
    · rw [incrAt_none l i h1] at h; cases h
  rw [incrAt_eq l i hi] at h
  cases h
  refine ⟨(length_addCounts _ _).symm, ?_⟩
  intro k b a hb ha
  rw [getElem?_addCounts, hb] at ha
  simp only [Option.map_some', Option.some.injEq] at ha
  rw [← ha]
  show b.runningJobs ≤ b.runningJobs + _
  split_ifs <;> omega

theorem nextMinuteLoop_countsLe (len : Nat) (ms : List Nat) (l l1 : List RunSchema)
    (h : nextMinuteLoop len ms l = some l1) : CountsLe l l1 := by
  induction ms generalizing l with
  | nil =>
    simp only [nextMinuteLoop, Option.some.injEq] at h
    rw [h]
    exact CountsLe.refl _
  | cons m ms ih =>
    simp only [nextMinuteLoop] at h
    split_ifs at h with hc
    · cases hi : incrAt l m with
      | none => rw [hi] at h; cases h
      | some l2 =>
        rw [hi] at h
        exact (incrAt_countsLe l m l2 hi).trans (ih l2 h)
    · exact ih l h

theorem fire_countsLe (len minute : Nat) (job : JobsData) (l l1 : List RunSchema)
    (h : fire len minute job l = some l1) : CountsLe l l1 := by
  unfold fire at h
  cases hi : incrAt l minute with
  | none => rw [hi] at h; cases h
  | some l2 =>
    rw [hi] at h
    exact (incrAt_countsLe l minute l2 hi).trans (nextMinuteLoop_countsLe _ _ l2 l1 h)

theorem jobsLoop_countsLe (cx : Cronexpr) (len minute : Nat) (runSchema : RunSchema)
    (jobs : List JobsData) (l st : List RunSchema)
    (h : jobsLoop cx len minute runSchema jobs l = Run.done st ∨
      jobsLoop cx len minute runSchema jobs l = Run.exit1 st) : CountsLe l st := by
  induction jobs generalizing l with
  | nil =>
    simp only [jobsLoop] at h
    rcases h with h | h <;> cases h
    exact CountsLe.refl _
  | cons job rest ih =>
    simp only [jobsLoop] at h
    cases hp : cx.Parse job.schedule with
    | none =>
      rw [hp] at h
      rcases h with h | h <;> cases h
      exact CountsLe.refl _
    | some e =>
      rw [hp] at h
      simp only at h
      split_ifs at h with hd
      · cases hf : fire len minute job l with
        | none => rw [hf] at h; rcases h with h | h <;> cases h
        | some l2 =>
          rw [hf] at h
          exact (fire_countsLe len minute job l l2 hf).trans (ih l2 h)
      · exact ih l h

theorem minuteLoop_countsLe (cx : Cronexpr) (jobs : List JobsData) (len : Nat)
    (ms : List Nat) (l st : List RunSchema)
    (h : minuteLoop cx jobs len ms l = Run.done st ∨
      minuteLoop cx jobs len ms l = Run.exit1 st) : CountsLe l st := by
  induction ms generalizing l with
  | nil =>
    simp only [minuteLoop] at h
    rcases h with h | h <;> cases h
    exact CountsLe.refl _
  | cons m ms ih =>
    simp only [minuteLoop] at h
    cases hg : l[m]? with
    | none => rw [hg] at h; rcases h with h | h <;> cases h
    | some rs =>
      rw [hg] at h
      simp only at h
      cases hj : jobsLoop cx len m rs jobs l with
      | done l2 =>
        rw [hj] at h
        exact (jobsLoop_countsLe cx len m rs jobs l l2 (Or.inl hj)).trans (ih l2 h)
      | exit1 s =>
        rw [hj] at h
        rcases h with h | h <;> cases h
        exact jobsLoop_countsLe cx len m rs jobs l _ (Or.inr hj)
      | panic => rw [hj] at h; rcases h with h | h <;> cases h

/-- C14. Every bucket of the grid starts with running count 0; each statement that
raises a bucket, each firing, each pass of one bucket over the job list and the whole
aggregation leave every bucket's count at least what it was; so every count is
non-negative in the grid the aggregation leaves, at its end or at an exit. -/
theorem counts_never_decrease (cx : Cronexpr) (jobs : List JobsData) :
    (∀ (t : Int) (r : RunSchema), r ∈ buildGrid t → r.runningJobs = 0) ∧
    (∀ (l : List RunSchema) (i : Nat) (l1 : List RunSchema),
      incrAt l i = some l1 → CountsLe l l1) ∧
    (∀ (len minute : Nat) (job : JobsData) (l l1 : List RunSchema),
      fire len minute job l = some l1 → CountsLe l l1) ∧
    (∀ (len minute : Nat) (runSchema : RunSchema) (l st : List RunSchema),
      (jobsLoop cx len minute runSchema jobs l = Run.done st ∨
        jobsLoop cx len minute runSchema jobs l = Run.exit1 st) → CountsLe l st) ∧
    (∀ grid st : List RunSchema,
      (processJobs cx jobs grid = Run.done st ∨ processJobs cx jobs grid = Run.exit1 st) →
        CountsLe grid st) ∧
    (∀ (t : Int) (st : List RunSchema),
      (processJobs cx jobs (buildGrid t) = Run.done st ∨
        processJobs cx jobs (buildGrid t) = Run.exit1 st) →
        ∀ r ∈ st, 0 ≤ r.runningJobs) := by
  refine ⟨buildGrid_runningJobs, incrAt_countsLe, fire_countsLe,
    fun len minute rs l st h => jobsLoop_countsLe cx len minute rs jobs l st h,
    fun grid st h => minuteLoop_countsLe cx jobs _ _ grid st h, ?_⟩
  intro t st h r hr
  have hle : CountsLe (buildGrid t) st := minuteLoop_countsLe cx jobs _ _ _ st h
  obtain ⟨k, hk⟩ := List.mem_iff_getElem?.mp hr
  have hklt : k < (buildGrid t).length := by
    rw [hle.1]
    rcases Nat.lt_or_ge k st.length with h1 | h1
    · exact h1
    · rw [List.getElem?_eq_none h1] at hk; cases hk
  have hb : (buildGrid t)[k]? = some (buildGrid t)[k] := List.getElem?_eq_getElem hklt
  have h0 := buildGrid_runningJobs t _ (List.getElem?_mem hb)
  have := hle.2 k _ r hb hk
  omega


/-! ## C15: additivity over the job list -/

/-- C15. For job lists `A` and `B` with valid expressions and a grid of zero counts, the
runs over `A`, over `B` and over `A ++ B` end normally with grids of the same length,
the count of each bucket after `A ++ B` is the sum of its counts after `A` and after
`B`, and the run over any permutation of `A` leaves the same grid as the run over `A`. -/
theorem processJobs_additive (cx : Cronexpr) (A B : List JobsData) (grid : List RunSchema)
    (hA : ∀ j ∈ A, parses cx j = true) (hB : ∀ j ∈ B, parses cx j = true)
    (hzero : ∀ r ∈ grid, r.runningJobs = 0) :
    ∃ oA oB oAB, processJobs cx A grid = Run.done oA ∧
      processJobs cx B grid = Run.done oB ∧
      processJobs cx (A ++ B) grid = Run.done oAB ∧
      oA.length = grid.length ∧ oB.length = grid.length ∧ oAB.length = grid.length ∧
      (∀ (k : Nat) (a b : RunSchema), oA[k]? = some a → oB[k]? = some b →
        ∃ c, oAB[k]? = some c ∧ c.runningJobs = a.runningJobs + b.runningJobs) ∧
      (∀ A1 : List JobsData, A.Perm A1 → processJobs cx A1 grid = Run.done oA) := by
  have hallA : A.all (parses cx) = true := List.all_eq_true.mpr hA
  have hallB : B.all (parses cx) = true := List.all_eq_true.mpr hB
  have hallAB : (A ++ B).all (parses cx) = true := by
    rw [List.all_append, hallA, hallB]; rfl
  refine ⟨_, _, _, processJobs_done cx A grid hallA, processJobs_done cx B grid hallB,
    processJobs_done cx _ grid hallAB, length_addCounts _ _, length_addCounts _ _,
    length_addCounts _ _, ?_, ?_⟩
  · intro k a b ha hb
    rw [getElem?_addCounts] at ha hb
    rw [getElem?_addCounts]
    cases hg : grid[k]? with
    | none => rw [hg] at ha; cases ha
    | some g =>
      rw [hg] at ha hb
      simp only [Option.map_some', Option.some.injEq] at ha hb
      have h0 : g.runningJobs = 0 := hzero g (List.getElem?_mem hg)
      refine ⟨_, rfl, ?_⟩
      subst ha hb
      show g.runningJobs + contribution cx grid (A ++ B) (List.range grid.length) k =
        g.runningJobs + contribution cx grid A (List.range grid.length) k +
          (g.runningJobs + contribution cx grid B (List.range grid.length) k)
      rw [contribution_append, h0]
      ring
  · intro A1 hperm
    have hall1 : A1.all (parses cx) = true :=
      List.all_eq_true.mpr (fun j hj => hA j (hperm.symm.subset hj))
    rw [processJobs_done cx A1 grid hall1]
    refine congrArg _ (addCounts_congr _ _ _ ?_)
    intro k _
    exact contribution_perm cx grid A1 A hperm.symm _ k

/-- C15 at the sample packages: the two jobs of the usage text and the every-minute job
on the grid of one day. -/
theorem processJobs_additive_witness :
    ∃ oA oB oAB, processJobs sampleCron sampleJobs (buildGrid 86400) = Run.done oA ∧
      processJobs sampleCron everyMinuteJobs (buildGrid 86400) = Run.done oB ∧
      processJobs sampleCron (sampleJobs ++ everyMinuteJobs) (buildGrid 86400) =
        Run.done oAB ∧
      oA.length = (buildGrid 86400).length ∧ oB.length = (buildGrid 86400).length ∧
      oAB.length = (buildGrid 86400).length ∧
      (∀ (k : Nat) (a b : RunSchema), oA[k]? = some a → oB[k]? = some b →
        ∃ c, oAB[k]? = some c ∧ c.runningJobs = a.runningJobs + b.runningJobs) ∧
      (∀ A1 : List JobsData, sampleJobs.Perm A1 →
        processJobs sampleCron A1 (buildGrid 86400) = Run.done oA) :=
  processJobs_additive sampleCron sampleJobs everyMinuteJobs (buildGrid 86400)
    (by decide) (by decide) (buildGrid_runningJobs _)


/-! ## C16: the sign of a loaded duration -/

theorem fire_short (job : JobsData) (hd : runMinutesRequired job ≤ 1) (l : List RunSchema)
    (minute : Nat) (hm : minute < l.length) :
    fire l.length minute job l = incrAt l minute := by
  rw [fire_eq minute job l hm, incrAt_eq l minute hm]
  refine congrArg _ (addCounts_congr _ _ _ ?_)
  intro k _
  rw [covers_of_short job hd]
  by_cases h : minute = k
  · simp [h]
  · have : ¬ k = minute := fun e => h e.symm
    simp [h, this]

/-- The run reaches the report when the arguments, the file and every expression are
in order. -/
theorem mainRun_report (sc : Strconv) (cx : Cronexpr) (sp : SortPkg) (args : List String)
    (content : String) (t : Int) (jobs : List JobsData)
    (hargs : args.length = 2 ∨ args.length = 3) (ht : timeFrameSecOf sc args = some t)
    (hne : trimSpace content.toList ≠ [])
    (hload : loadJobs sc (trimSpace content.toList) = Run.done jobs)
    (hall : jobs.all (parses cx) = true) :
    mainRun sc cx sp args (some content) =
      Outcome.report (rank sp (addCounts
        (contribution cx (buildGrid t) jobs (List.range (buildGrid t).length))
        (buildGrid t))) := by
  unfold mainRun
  have h1 : ¬ (args.length < 2 ∨ args.length > 3) := by omega
  rw [if_neg h1, ht]
  simp only
  rw [if_neg hne, hload]
  simp only
  rw [processJobs_done cx jobs _ hall]

/-- C16, counterexample. The line `0 * * * *<TAB>-5` is loaded as a job of duration -5,
and the run with that file goes on to the report. -/
theorem loadJobs_negative_duration :
    loadJobs sampleStrconv (trimSpace "0 * * * *\t-5".toList) =
        Run.done [{ schedule := "0 * * * *", timeElapsed := GoFloat64.finite (-5) }] ∧
      (-5 : ℚ) < 0 ∧
      ∃ ranked, mainRun sampleStrconv sampleCron sampleSort
        ["cron_schedule_analyzer.bin", "my_cron_schedule", "1"]
        (some "0 * * * *\t-5") = Outcome.report ranked := by
  refine ⟨by decide, by norm_num, ?_⟩
  exact ⟨_, mainRun_report sampleStrconv sampleCron sampleSort _ "0 * * * *\t-5" 86400
    [{ schedule := "0 * * * *", timeElapsed := GoFloat64.finite (-5) }] (by decide)
    (by decide) (by decide) (by decide) (by decide)⟩

/-- C16, as amended. A line that is not blank, has at least two columns and whose
second column `strconv.ParseFloat` reads as `x` puts a job of duration `x` in the job
list, whatever `x` is (a number of either sign, an infinity or a NaN); when `x` is a
number `d ≤ 0` each firing of that job is the single statement that raises its firing
bucket. -/
theorem linesLoop_keeps_duration (sc : Strconv) (line : List Char)
    (rest : List (List Char)) (jobsDataList : List JobsData) (col0 col1 : List Char)
    (more : List (List Char)) (x : GoFloat64) (hne : trimSpace line ≠ [])
    (hsplit : split (Char.ofNat 9) (trimSpace line) = col0 :: col1 :: more)
    (hparse : sc.ParseFloat (String.mk col1) = some x) :
    linesLoop sc (line :: rest) jobsDataList =
        linesLoop sc rest (jobsDataList ++ [{ schedule := String.mk col0, timeElapsed := x }]) ∧
      (∀ d : ℚ, x = GoFloat64.finite d → d ≤ 0 →
        ∀ (l : List RunSchema) (minute : Nat), minute < l.length →
        fire l.length minute { schedule := String.mk col0, timeElapsed := x } l =
          incrAt l minute) := by
  constructor
  · simp only [linesLoop, if_neg hne, hsplit]
    simp [hparse]
  · intro d hx hd l minute hm
    exact fire_short _ (runMinutesRequired_le_one _ d hx (by linarith)) l minute hm

/-- C16 as amended, at the line `0 * * * *<TAB>-5` and the sample `strconv`. -/
theorem linesLoop_keeps_duration_witness :
    linesLoop sampleStrconv ("0 * * * *\t-5".toList :: []) [] =
        linesLoop sampleStrconv []
          ([] ++ [{ schedule := String.mk "0 * * * *".toList,
                    timeElapsed := GoFloat64.finite (-5) }]) ∧
      (∀ d : ℚ, GoFloat64.finite (-5) = GoFloat64.finite d → d ≤ 0 →
        ∀ (l : List RunSchema) (minute : Nat), minute < l.length →
        fire l.length minute
          { schedule := String.mk "0 * * * *".toList,
            timeElapsed := GoFloat64.finite (-5) } l =
          incrAt l minute) :=
  linesLoop_keeps_duration sampleStrconv "0 * * * *\t-5".toList [] [] "0 * * * *".toList
    "-5".toList [] (GoFloat64.finite (-5)) (by decide) (by decide) (by decide)

/-! ## C17: the firing test -/

theorem due_iff_of_earliest (cx : Cronexpr) (e : cx.Expression) (matchesRule : Int → Prop)
    (hNext : ∀ t : Int, EarliestAfter matchesRule t (cx.Next e t)) (b : Int) :
    due cx e (mkRunSchema b) = true ↔ matchesRule b := by
  simp only [due, mkRunSchema, decide_eq_true_eq]
  obtain ⟨hlt, hm, hleast⟩ := hNext (b - 1)
  constructor
  · intro h
    rw [h]
    exact hm
  · intro h
    have h1 := hleast b (by omega) h
    omega

/-- C17. When `Next e t` is, for every `t`, the earliest whole second strictly after `t`
that matches the rule, the test of `main` at the bucket of second `b`, which is
`Next e (b - 1) = b`, holds exactly when `b` matches the rule; so it does at every
bucket of every grid. -/
theorem due_iff_matches (cx : Cronexpr) (e : cx.Expression) (matchesRule : Int → Prop)
    (hNext : ∀ t : Int, EarliestAfter matchesRule t (cx.Next e t)) :
    (∀ b : Int, due cx e (mkRunSchema b) = true ↔ matchesRule b) ∧
    (∀ b : Int, (mkRunSchema b).tsTime = cx.Next e (mkRunSchema b).tsTime1SecBack ↔
      matchesRule b) ∧
    (∀ (t : Int) (runSchema : RunSchema), runSchema ∈ buildGrid t →
      (due cx e runSchema = true ↔ matchesRule runSchema.ts)) := by
  refine ⟨due_iff_of_earliest cx e matchesRule hNext, ?_, ?_⟩
  · intro b
    have := due_iff_of_earliest cx e matchesRule hNext b
    simpa only [due, decide_eq_true_eq] using this
  · intro t runSchema hr
    simp only [buildGrid, List.mem_map] at hr
    obtain ⟨ts, _, rfl⟩ := hr
    exact due_iff_of_earliest cx e matchesRule hNext ts

/-- C17 at the every-minute rule of the sample `cronexpr`, which matches the seconds
that are multiples of 60. -/
theorem due_iff_matches_witness :
    (∀ b : Int, due sampleCron SampleExpr.everyMinute (mkRunSchema b) = true ↔ b % 60 = 0) ∧
    (∀ b : Int, (mkRunSchema b).tsTime =
        sampleCron.Next SampleExpr.everyMinute (mkRunSchema b).tsTime1SecBack ↔
      b % 60 = 0) ∧
    (∀ (t : Int) (runSchema : RunSchema), runSchema ∈ buildGrid t →
      (due sampleCron SampleExpr.everyMinute runSchema = true ↔ runSchema.ts % 60 = 0)) :=
  due_iff_matches sampleCron SampleExpr.everyMinute (fun s => s % 60 = 0)
    (fun t => by
      show t < (t / 60 + 1) * 60 ∧ (t / 60 + 1) * 60 % 60 = 0 ∧
        ∀ u : Int, t < u → u % 60 = 0 → (t / 60 + 1) * 60 ≤ u
      refine ⟨by omega, by omega, fun u h1 h2 => by omega⟩)


/-! ## C18: the constant `tsStart` -/

/-- C18, counterexample. `tsStart` is not `10957 * 86400` and is not a multiple of
86400. -/
theorem tsStart_not_utc_midnight : tsStart ≠ 10957 * 86400 ∧ tsStart % 86400 ≠ 0 := by
  decide

/-- C18, as amended. `tsStart` is `10957 * 86400 + 6 * 3600`, six hours after the start of
the day 10957 days after 1970-01-01 00:00:00 UTC: it leaves 21600 modulo 86400 and is
a multiple of 3600 and of 60. -/
theorem tsStart_value :
    tsStart = 10957 * 86400 + 6 * 3600 ∧ tsStart % 86400 = 21600 ∧ tsStart % 3600 = 0 ∧
      tsStart % 60 = 0 := by
  decide

/-! ## C19: a longer window -/

theorem contribution_minutes_append (cx : Cronexpr) (grid : List RunSchema)
    (jobs : List JobsData) (ms1 ms2 : List Nat) (k : Nat) :
    contribution cx grid jobs (ms1 ++ ms2) k =
      contribution cx grid jobs ms1 k + contribution cx grid jobs ms2 k := by
  simp only [contribution, List.map_append, List.sum_append]

theorem contribution_later_zero (cx : Cronexpr) (grid : List RunSchema)
    (jobs : List JobsData) (ms : List Nat) (k : Nat) (h : ∀ m ∈ ms, k < m) :
    contribution cx grid jobs ms k = 0 := by
  unfold contribution
  apply List.sum_eq_zero
  intro x hx
  obtain ⟨m, hm, rfl⟩ := List.mem_map.mp hx
  apply List.sum_eq_zero
  intro y hy
  obtain ⟨j, _, rfl⟩ := List.mem_map.mp hy
  have hc : covers m j k = false := by
    simp only [covers, decide_eq_false_iff_not]
    have := h m hm
    omega
  simp [hc]

theorem contribution_congr_grid (cx : Cronexpr) (g1 g2 : List RunSchema)
    (jobs : List JobsData) (ms : List Nat) (k : Nat)
    (h : ∀ m ∈ ms, g1[m]? = g2[m]?) :
    contribution cx g1 jobs ms k = contribution cx g2 jobs ms k := by
  unfold contribution
  congr 1
  apply List.map_congr_left
  intro m hm
  simp only [firesAt, h m hm]

/-- The counts of the first buckets do not depend on how many buckets follow. -/
theorem contribution_prefix (cx : Cronexpr) (jobs : List JobsData) (m1 m2 k : Nat)
    (h12 : m1 ≤ m2) (hk : k < m1)
    (hm2 : tsStart + 60 * (m2 : Int) < 9223372036854775808) :
    contribution cx (buildGrid (60 * (m1 : Int))) jobs (List.range m1) k =
      contribution cx (buildGrid (60 * (m2 : Int))) jobs (List.range m2) k := by
  have hm1 : tsStart + 60 * (m1 : Int) < 9223372036854775808 := by omega
  have hr : List.range m2 = List.range m1 ++ (List.range (m2 - m1)).map (m1 + ·) := by
    rw [← List.range_add]
    congr 1
    omega
  rw [hr, contribution_minutes_append,
    contribution_later_zero cx _ jobs ((List.range (m2 - m1)).map (m1 + ·)) k ?_, add_zero]
  · apply contribution_congr_grid
    intro m hm
    have hmlt : m < m1 := List.mem_range.mp hm
    rw [buildGrid_eq m1 hm1, buildGrid_eq m2 hm2]
    simp [List.getElem?_range hmlt, List.getElem?_range (show m < m2 by omega)]
  · intro m hm
    obtain ⟨x, _, rfl⟩ := List.mem_map.mp hm
    omega

/-- C19, counterexample. Windows of 1 day and of 106751991167301 days: the number of
seconds of the longer window wraps to a negative `int`, its grid is empty, and bucket
0, which has count 1 in the grid of one day, does not exist in it. -/
theorem longer_window_overflow :
    timeFrameSecOf sampleStrconv
        ["cron_schedule_analyzer.bin", "my_cron_schedule", "1"] = some 86400 ∧
    timeFrameSecOf sampleStrconv
        ["cron_schedule_analyzer.bin", "my_cron_schedule", "106751991167301"] =
      some (-9223372036854745216) ∧
    ∃ out1, processJobs sampleCron sampleJobs (buildGrid 86400) = Run.done out1 ∧
      (out1[0]?).map RunSchema.runningJobs = some 1 ∧
      processJobs sampleCron sampleJobs (buildGrid (-9223372036854745216)) = Run.done [] := by
  refine ⟨by decide, by decide, _,
    processJobs_done sampleCron sampleJobs (buildGrid 86400) (by decide), ?_, by decide⟩
  rw [getElem?_addCounts, buildGrid_day_length,
    usage_contribution sampleCron (fun i hi => hourly_firesAt_day i hi _)
      (fun i hi => fiveMinute_firesAt_day i hi _) 0 (by decide),
    buildGrid_day_eq]
  simp [mkRunSchema]

/-- C19, amended. For windows of `D1 ≤ D2` days, the longer of which ends inside the
range of `int` (`946706400 + 86400 * D2 < 2 ^ 63`), and jobs with valid expressions,
both runs end normally and every bucket `k < 1440 * D1` is the same bucket, with the
same running count, in the grid of `D1` days and in the grid of `D2` days. -/
theorem longer_window_same_counts (cx : Cronexpr) (jobs : List JobsData) (D1 D2 : Int)
    (h0 : 0 ≤ D1) (h12 : D1 ≤ D2)
    (hfit : tsStart + D2 * SEC_IN_DAY < 9223372036854775808)
    (hvalid : ∀ j ∈ jobs, parses cx j = true) :
    ∃ out1 out2, processJobs cx jobs (buildGrid (D1 * SEC_IN_DAY)) = Run.done out1 ∧
      processJobs cx jobs (buildGrid (D2 * SEC_IN_DAY)) = Run.done out2 ∧
      ∀ k : Nat, k < 1440 * D1.toNat →
        ∃ r, out1[k]? = some r ∧ out2[k]? = some r := by
  have hall : jobs.all (parses cx) = true := List.all_eq_true.mpr hvalid
  refine ⟨_, _, processJobs_done cx jobs _ hall, processJobs_done cx jobs _ hall, ?_⟩
  intro k hk
  have hle : 1440 * D1.toNat ≤ 1440 * D2.toNat := by omega
  have hm2 : tsStart + 60 * ((1440 * D2.toNat : Nat) : Int) < 9223372036854775808 := by
    rw [← days_eq_minutes D2 (by omega)]; exact hfit
  have hm1 : tsStart + 60 * ((1440 * D1.toNat : Nat) : Int) < 9223372036854775808 := by
    omega
  rw [days_eq_minutes D1 h0, days_eq_minutes D2 (by omega), getElem?_addCounts,
    getElem?_addCounts, buildGrid_minutes_length _ hm1, buildGrid_minutes_length _ hm2,
    contribution_prefix cx jobs _ _ k hle hk hm2, buildGrid_eq _ hm1, buildGrid_eq _ hm2]
  rw [List.getElem?_map, List.getElem?_map, List.getElem?_range hk,
    List.getElem?_range (show k < 1440 * D2.toNat by omega)]
  exact ⟨_, rfl, rfl⟩

/-- C19 as amended, at the sample packages: windows of one day and of seven days. -/
theorem longer_window_same_counts_witness :
    ∃ out1 out2, processJobs sampleCron sampleJobs (buildGrid (1 * SEC_IN_DAY)) =
        Run.done out1 ∧
      processJobs sampleCron sampleJobs (buildGrid (7 * SEC_IN_DAY)) = Run.done out2 ∧
      ∀ k : Nat, k < 1440 * (1 : Int).toNat →
        ∃ r, out1[k]? = some r ∧ out2[k]? = some r :=
  longer_window_same_counts sampleCron sampleJobs 1 7 (by decide) (by decide) (by decide)
    (by decide)

/-! ## C20: the job of 3600 seconds at every hour -/

theorem hour_contribution (cx : Cronexpr) (grid : List RunSchema) (n k : Nat) (hk : k < n)
    (hn : (n : Int) + 62 < 9223372036854775808)
    (hf : ∀ i, i < n → firesAt cx grid
      { schedule := "0 * * * *", timeElapsed := GoFloat64.finite 3600 } i =
        decide (i % 60 = 0)) :
    contribution cx grid hourJobs (List.range n) k =
      if 60 ≤ k ∧ (k % 60 = 0 ∨ k % 60 = 1) then 2 else 1 := by
  have hS : max 1 (runMinutesRequired
      { schedule := "0 * * * *", timeElapsed := GoFloat64.finite 3600 }) =
      ((62 : Nat) : Int) := by
    rw [(runMinutesRequired_values _).2.2.2]; rfl
  unfold hourJobs
  rw [contribution_single_of cx grid _ n k 62 (fun m => m % 60 = 0) hf hS hn,
    card_hourly_62 n k hk]
  split_ifs <;> rfl

/-- A job that fires at the first bucket of the last hour of a window of `D` days:
the window ends inside the range of `int`, since the grid of a window that does not
has no such bucket. -/
theorem days_fit_of_fires (cx : Cronexpr) (job : JobsData) (D : Int)
    (hf : firesAt cx (buildGrid (D * SEC_IN_DAY)) job (1440 * D.toNat - 60) = true) :
    tsStart + D * SEC_IN_DAY < 9223372036854775808 := by
  have hlt : 1440 * D.toNat - 60 < (buildGrid (D * SEC_IN_DAY)).length := by
    rcases Nat.lt_or_ge (1440 * D.toNat - 60) (buildGrid (D * SEC_IN_DAY)).length with h | h
    · exact h
    · unfold firesAt at hf
      rw [List.getElem?_eq_none h] at hf
      cases hf
  rw [buildGrid_length] at hlt
  unfold gridLength wrap64 at hlt
  unfold tsStart SEC_IN_DAY at hlt ⊢
  omega

/-- C20. When the expression `0 * * * *` fires exactly at the buckets `i` with
`i % 60 = 0`, the run of the single job of 3600 seconds over `D ≥ 1` days ends normally,
bucket `k` has count 2 when `k ≥ 60` and `k % 60` is 0 or 1 and count 1 otherwise, and
the first row of the ranking has count 2. -/
theorem hour_job_counted_twice (cx : Cronexpr) (sp : SortPkg) (D : Int) (hD : 1 ≤ D)
    (hf : ∀ i, i < 1440 * D.toNat → firesAt cx (buildGrid (D * SEC_IN_DAY))
      { schedule := "0 * * * *", timeElapsed := GoFloat64.finite 3600 } i =
        decide (i % 60 = 0)) :
    ∃ out, processJobs cx hourJobs (buildGrid (D * SEC_IN_DAY)) = Run.done out ∧
      out.length = 1440 * D.toNat ∧
      (∀ k, k < 1440 * D.toNat → (out[k]?).map RunSchema.runningJobs =
        some (if 60 ≤ k ∧ (k % 60 = 0 ∨ k % 60 = 1) then 2 else 1)) ∧
      ∃ first, (rank sp out).head? = some first ∧ first.runningJobs = 2 := by
  have hn : 60 < 1440 * D.toNat := by omega
  have hfit : tsStart + D * SEC_IN_DAY < 9223372036854775808 :=
    days_fit_of_fires cx _ D
      ((hf (1440 * D.toNat - 60) (by omega)).trans (decide_eq_true (by omega)))
  have hlen : (buildGrid (D * SEC_IN_DAY)).length = 1440 * D.toNat := by
    rw [buildGrid_length, gridLength_days D (by omega) hfit]
  have hn62 : ((1440 * D.toNat : Nat) : Int) + 62 < 9223372036854775808 := by
    unfold tsStart SEC_IN_DAY at hfit
    omega
  have hp := parses_of_firesAt cx _ _ 0 ((hf 0 (by omega)).trans (by decide))
  have hall : hourJobs.all (parses cx) = true := by
    simp only [hourJobs, List.all_cons, List.all_nil, hp, Bool.and_self]
  have hcount : ∀ k, k < 1440 * D.toNat →
      ((addCounts (contribution cx (buildGrid (D * SEC_IN_DAY)) hourJobs
        (List.range (buildGrid (D * SEC_IN_DAY)).length)) (buildGrid (D * SEC_IN_DAY)))[k]?).map
          RunSchema.runningJobs =
        some (if 60 ≤ k ∧ (k % 60 = 0 ∨ k % 60 = 1) then 2 else 1) := by
    intro k hk
    rw [getElem?_addCounts, hlen, hour_contribution cx _ _ k hk hn62 hf]
    cases hg : (buildGrid (D * SEC_IN_DAY))[k]? with
    | none =>
      have := List.getElem?_eq_none_iff.mp hg
      omega
    | some g =>
      have hz : g.runningJobs = 0 := buildGrid_runningJobs _ g (List.getElem?_mem hg)
      simp only [Option.map_some', hz, zero_add]
  have hne : addCounts (contribution cx (buildGrid (D * SEC_IN_DAY)) hourJobs
      (List.range (buildGrid (D * SEC_IN_DAY)).length)) (buildGrid (D * SEC_IN_DAY)) ≠ [] := by
    intro h
    have := congrArg List.length h
    rw [length_addCounts, hlen] at this
    simp only [List.length_nil] at this
    omega
  obtain ⟨first, hhead, hmem, hmax⟩ := rank_head_spec sp _ hne
  refine ⟨_, processJobs_done cx hourJobs _ hall, by rw [length_addCounts, hlen], hcount,
    first, hhead, ?_⟩
  have hle : first.runningJobs ≤ 2 := by
    obtain ⟨k, hk⟩ := List.mem_iff_getElem?.mp hmem
    have hk1 : k < 1440 * D.toNat := by
      rcases Nat.lt_or_ge k (1440 * D.toNat) with h | h
      · exact h
      · rw [List.getElem?_eq_none (by rw [length_addCounts, hlen]; exact h)] at hk
        cases hk
    have := hcount k hk1
    rw [hk] at this
    simp only [Option.map_some', Option.some.injEq] at this
    rw [this]
    split_ifs <;> decide
  have hge : 2 ≤ first.runningJobs := by
    have h60 := hcount 60 hn
    cases h : (addCounts (contribution cx (buildGrid (D * SEC_IN_DAY)) hourJobs
        (List.range (buildGrid (D * SEC_IN_DAY)).length)) (buildGrid (D * SEC_IN_DAY)))[60]? with
    | none => rw [h] at h60; cases h60
    | some r =>
      rw [h] at h60
      simp only [Option.map_some', Option.some.injEq] at h60
      have := hmax r (List.getElem?_mem h)
      rw [h60] at this
      simpa using this
  omega

/-- C20 at the sample packages and a window of one day. -/
theorem hour_job_counted_twice_witness :
    ∃ out, processJobs sampleCron hourJobs (buildGrid (1 * SEC_IN_DAY)) = Run.done out ∧
      out.length = 1440 * (1 : Int).toNat ∧
      (∀ k, k < 1440 * (1 : Int).toNat → (out[k]?).map RunSchema.runningJobs =
        some (if 60 ≤ k ∧ (k % 60 = 0 ∨ k % 60 = 1) then 2 else 1)) ∧
      ∃ first, (rank sampleSort out).head? = some first ∧ first.runningJobs = 2 :=
  hour_job_counted_twice sampleCron sampleSort 1 (by decide)
    (fun i hi => by
      have h1 : (1 : Int) * SEC_IN_DAY = 60 * ((1440 : Nat) : Int) := by
        simp only [SEC_IN_DAY]; norm_num
      rw [h1]
      exact hourly_firesAt 1440 i (by simpa using hi) (by decide) _)

end CronScheduleAnalyzer
